import Mathlib

/-!
# mcp-audit: a verification development for `mcp-client-audit.go`

The Go program is embedded shallowly.  A Go `string` is its sequence of bytes,
a Go `int` is an `Int` (wrapped to 64 bits where the program adds), and the
standard-library routines the program calls (`strings.TrimSpace`,
`utf8.RuneCountInString`, `strings.Split`, the `float64` conversion and
division, `int(...)`) are transcribed from the Go standard library so that
every definition can be evaluated on concrete inputs.  `encoding/json` is not
transcribed: the encoder and the two decoders the program uses are taken as
parameters (`Codec`).
-/

namespace MCPAudit

/-! ## Go strings and the `unicode/utf8` routines -/

/-- A Go string: an immutable sequence of bytes, not necessarily valid UTF-8. -/
abbrev GoString := List UInt8

/-- The bytes of a string literal (UTF-8, as the Go compiler stores it). -/
def lit (s : String) : GoString := s.toUTF8.data.toList

/-- Constant `utf8.RuneError` (U+FFFD). -/
def RuneError : Nat := 0xFFFD

/-- Constant `utf8.RuneSelf`: bytes below it are single-byte runes. -/
def RuneSelf : Nat := 0x80

/-- Constant `utf8.UTFMax`: the longest encoding of one rune. -/
def UTFMax : Nat := 4

/-- Table `first` of `unicode/utf8`: information about the first byte of an
encoding.  `0xF0` is ASCII, `0xF1` is invalid, otherwise the low three bits
are the size and the high four bits index `acceptRanges`. -/
def first (c : Nat) : Nat :=
  if c < 0x80 then 0xF0
  else if c < 0xC2 then 0xF1
  else if c < 0xE0 then 0x02
  else if c = 0xE0 then 0x13
  else if c < 0xED then 0x03
  else if c = 0xED then 0x23
  else if c < 0xF0 then 0x03
  else if c = 0xF0 then 0x34
  else if c < 0xF4 then 0x04
  else if c = 0xF4 then 0x44
  else 0xF1

/-- Table `acceptRanges` of `unicode/utf8`: the range allowed for the second
byte, as `(lo, hi)`. -/
def acceptRanges (i : Nat) : Nat × Nat :=
  match i with
  | 0 => (0x80, 0xBF)
  | 1 => (0xA0, 0xBF)
  | 2 => (0x80, 0x9F)
  | 3 => (0x90, 0xBF)
  | 4 => (0x80, 0x8F)
  | _ => (0, 0)

/-- Byte `s[i]` as a number (0 beyond the end; every use is guarded by a
length test, as in the Go code). -/
def byteAt (s : GoString) (i : Nat) : Nat := (s.getD i 0).toNat

/-- Function `utf8.DecodeRuneInString`: the first rune of `s` and its width in
bytes; an invalid encoding yields `(RuneError, 1)`, the empty string
`(RuneError, 0)`. -/
def DecodeRuneInString (s : GoString) : Nat × Nat :=
  let n := s.length
  if n < 1 then (RuneError, 0) else
  let s0 := byteAt s 0
  let x := first s0
  if x ≥ 0xF0 then (if x = 0xF1 then RuneError else s0, 1) else
  let sz := x % 8
  let accept := acceptRanges (x / 16)
  if n < sz then (RuneError, 1) else
  let s1 := byteAt s 1
  if s1 < accept.1 ∨ accept.2 < s1 then (RuneError, 1) else
  if sz ≤ 2 then ((s0 % 32) * 64 + s1 % 64, 2) else
  let s2 := byteAt s 2
  if s2 < 0x80 ∨ 0xBF < s2 then (RuneError, 1) else
  if sz ≤ 3 then ((s0 % 16) * 4096 + (s1 % 64) * 64 + s2 % 64, 3) else
  let s3 := byteAt s 3
  if s3 < 0x80 ∨ 0xBF < s3 then (RuneError, 1) else
  ((s0 % 8) * 262144 + (s1 % 64) * 4096 + (s2 % 64) * 64 + s3 % 64, 4)

/-- Function `utf8.RuneStart`: the byte is not a continuation byte. -/
def RuneStart (b : Nat) : Bool := decide (b / 64 ≠ 2)

/-- The backward scan of `utf8.DecodeLastRuneInString`:
`for start--; start >= lim; start-- { if RuneStart(s[start]) { break } }`,
entered with `start` already decremented. -/
def lastRuneScan (s : GoString) (lim : Int) : Nat → Int → Int
  | 0, start => start
  | fuel + 1, start =>
    if start ≥ lim then
      if RuneStart (byteAt s start.toNat) then start
      else lastRuneScan s lim fuel (start - 1)
    else start

/-- Function `utf8.DecodeLastRuneInString`: the last rune of `s` and its
width. -/
def DecodeLastRuneInString (s : GoString) : Nat × Nat :=
  let e := s.length
  if e = 0 then (RuneError, 0) else
  let r := byteAt s (e - 1)
  if r < RuneSelf then (r, 1) else
  let lim : Int := if (e : Int) - UTFMax < 0 then 0 else (e : Int) - UTFMax
  let start0 := lastRuneScan s lim UTFMax ((e : Int) - 2)
  let start := if start0 < 0 then 0 else start0.toNat
  let d := DecodeRuneInString (s.drop start)
  if start + d.2 ≠ e then (RuneError, 1) else d

/-- The loop of `utf8.RuneCountInString` on the rest `s[i:]` of the string,
with the count so far. -/
def runeCountLoop : Nat → GoString → Nat → Nat
  | 0, _, n => n
  | _, [], n => n
  | fuel + 1, c :: rest, n =>
    let ns := rest.length + 1
    if c.toNat < RuneSelf then runeCountLoop fuel rest (n + 1) else
    let x := first c.toNat
    if x = 0xF1 then runeCountLoop fuel rest (n + 1) else
    let size := x % 8
    if size > ns then runeCountLoop fuel rest (n + 1) else
    let accept := acceptRanges (x / 16)
    let c1 := byteAt rest 0
    let size :=
      if c1 < accept.1 ∨ accept.2 < c1 then 1
      else if size = 2 then size
      else
        let c2 := byteAt rest 1
        if c2 < 0x80 ∨ 0xBF < c2 then 1
        else if size = 3 then size
        else
          let c3 := byteAt rest 2
          if c3 < 0x80 ∨ 0xBF < c3 then 1 else size
    runeCountLoop fuel (rest.drop (size - 1)) (n + 1)

/-- Function `utf8.RuneCountInString`: the number of runes in `s`; every
byte of an invalid encoding counts as one rune.  Each iteration of the loop
consumes at least one byte, so `len(s)` iterations suffice. -/
def RuneCountInString (s : GoString) : Nat := runeCountLoop s.length s 0

/-! ## `unicode.IsSpace` and `strings.TrimSpace` -/

/-- Table `asciiSpace` of package `strings`. -/
def asciiSpace (c : Nat) : Bool :=
  c = 9 || c = 10 || c = 11 || c = 12 || c = 13 || c = 32

/-- Function `unicode.IsSpace`: the Latin-1 switch, then the `White_Space`
range table. -/
def IsSpace (r : Nat) : Bool :=
  if r ≤ 0xFF then
    r = 9 || r = 10 || r = 11 || r = 12 || r = 13 || r = 32 || r = 0x85 || r = 0xA0
  else
    r = 0x1680 || (0x2000 ≤ r && r ≤ 0x200A) || r = 0x2028 || r = 0x2029
      || r = 0x202F || r = 0x205F || r = 0x3000

/-- The runes that `for _, r := range s` yields on the rest of the string. -/
def runesLoop : Nat → GoString → List Nat
  | 0, _ => []
  | fuel + 1, s =>
    if s.length = 0 then [] else
    let d := DecodeRuneInString s
    d.1 :: runesLoop fuel (s.drop d.2)

/-- The runes of `s` in order, as a `range` loop over the string sees them
(an invalid byte is seen as `RuneError`). -/
def runes (s : GoString) : List Nat := runesLoop s.length s

/-- The loop of `strings.TrimLeftFunc(s, unicode.IsSpace)` (that is,
`indexFunc(s, f, false)` followed by `s[i:]`) on the rest of the string:
`for i, r := range s` decodes one rune at a time. -/
def trimLeftLoop : Nat → GoString → GoString
  | 0, s => s
  | fuel + 1, s =>
    if s.length = 0 then [] else
    let d := DecodeRuneInString s
    if IsSpace d.1 then trimLeftLoop fuel (s.drop d.2) else s

/-- Function `strings.TrimLeftFunc(s, unicode.IsSpace)`. -/
def TrimLeftFunc (s : GoString) : GoString := trimLeftLoop s.length s

/-- Function `lastIndexFunc(s, unicode.IsSpace, false)` of package `strings`,
as a loop on the index `i`; the result is `-1` when every rune is a space. -/
def lastIndexLoop (s : GoString) : Nat → Nat → Int
  | 0, _ => -1
  | fuel + 1, i =>
    if i > 0 then
      let d := DecodeLastRuneInString (s.take i)
      let j := i - d.2
      if IsSpace d.1 then lastIndexLoop s fuel j else (j : Int)
    else -1

/-- Function `strings.TrimRightFunc(s, unicode.IsSpace)`. -/
def TrimRightFunc (s : GoString) : GoString :=
  let i := lastIndexLoop s s.length s.length
  if i ≥ 0 ∧ byteAt s i.toNat ≥ RuneSelf then
    let d := DecodeRuneInString (s.drop i.toNat)
    s.take (i.toNat + d.2)
  else
    s.take (i + 1).toNat

/-- Function `strings.TrimFunc(s, unicode.IsSpace)`. -/
def TrimFunc (s : GoString) : GoString := TrimRightFunc (TrimLeftFunc s)

/-- The first loop of `strings.TrimSpace`: skip ASCII spaces from the start.
Returns `s[start:]` and whether the scan stopped on a non-ASCII byte. -/
def trimSpaceStart : GoString → GoString × Bool
  | [] => ([], false)
  | c :: rest =>
    if c.toNat ≥ RuneSelf then (c :: rest, true)
    else if asciiSpace c.toNat then trimSpaceStart rest
    else (c :: rest, false)

/-- The second loop of `strings.TrimSpace` on `t = s[start:]`: skip ASCII
spaces from the end, handing over to `TrimRightFunc` on a non-ASCII byte. -/
def trimSpaceStop (t : GoString) : Nat → GoString
  | 0 => []
  | stop + 1 =>
    let c := byteAt t stop
    if c ≥ RuneSelf then TrimRightFunc (t.take (stop + 1))
    else if asciiSpace c then trimSpaceStop t stop
    else t.take (stop + 1)

/-- Function `strings.TrimSpace`. -/
def TrimSpace (s : GoString) : GoString :=
  match trimSpaceStart s with
  | (t, true) => TrimFunc t
  | (t, false) => trimSpaceStop t t.length

/-! ## `float64` arithmetic on non-negative values -/

/-- A finite non-negative `float64` value, held exactly as `num / 2 ^ shift`.
Only the operations the program performs are given: conversion from `int`,
division, and conversion back to `int`.  Infinities, NaN and subnormals do
not arise from them on the program's values and are not represented. -/
structure Float64 where
  num : Nat
  shift : Nat
deriving Repr, DecidableEq

/-- Round `n / d` to the nearest integer, ties to even. -/
def roundHalfEven (n d : Nat) : Nat :=
  let q := n / d
  let r := n % d
  if 2 * r < d then q
  else if d < 2 * r then q + 1
  else if q % 2 = 0 then q else q + 1

/-- The least `k` at or after the given one with `a / (b * 2^k) < 2^53`. -/
def downShift (a b : Nat) : Nat → Nat → Nat
  | 0, k => k
  | fuel + 1, k => if 2 ^ 53 * (b * 2 ^ k) ≤ a then downShift a b fuel (k + 1) else k

/-- The least `s` at or after the given one with `2^52 ≤ a * 2^s / b`. -/
def upShift (a b : Nat) : Nat → Nat → Nat
  | 0, s => s
  | fuel + 1, s => if a * 2 ^ s < 2 ^ 52 * b then upShift a b fuel (s + 1) else s

/-- The `float64` nearest to the rational `a / b` (round to nearest, ties to
even, 53-bit significand): the quotient is scaled by a power of two into
`[2^52, 2^53)`, rounded to an integer, and scaled back. -/
def Float64.ofQuot (a b : Nat) : Float64 :=
  if a = 0 ∨ b = 0 then ⟨0, 0⟩ else
  let k := downShift a b a 0
  if k = 0 then
    let s := upShift a b (53 + b) 0
    ⟨roundHalfEven (a * 2 ^ s) b, s⟩
  else
    ⟨roundHalfEven a (b * 2 ^ k) * 2 ^ k, 0⟩

/-- Conversion `float64(n)` of a non-negative `int`. -/
def Float64.ofInt (n : Nat) : Float64 := Float64.ofQuot n 1

/-- Division `x / y` of two `float64` values: the exact quotient, rounded. -/
def Float64.div (x y : Float64) : Float64 :=
  Float64.ofQuot (x.num * 2 ^ y.shift) (y.num * 2 ^ x.shift)

/-- Conversion `int(x)`: truncation toward zero. -/
def Float64.toInt (x : Float64) : Int := ((x.num / 2 ^ x.shift : Nat) : Int)

/-! ## TokenCounter -/

/-- Type `TokenCounter`. -/
structure TokenCounter where
  CharsPerToken : Float64

/-- Function `NewTokenCounter`: `CharsPerToken: 4.0`. -/
def NewTokenCounter : TokenCounter := { CharsPerToken := ⟨4, 0⟩ }

/-- Method `TokenCounter.EstimateTokens`. -/
def TokenCounter.EstimateTokens (tc : TokenCounter) (text : GoString) : Int :=
  let cleaned := TrimSpace text
  let charCount := RuneCountInString cleaned
  (Float64.div (Float64.ofInt charCount) tc.CharsPerToken).toInt

/-! ## Go `int` -/

/-- A Go `int` result brought back into the 64-bit two's-complement range. -/
def wrapInt64 (x : Int) : Int := (x + 2 ^ 63) % 2 ^ 64 - 2 ^ 63

/-- Formatting verb `%d` of package `fmt`. -/
def fmtInt (n : Int) : GoString := lit (toString n)

/-! ## Protocol and audit structures -/

deriving instance DecidableEq for Except

/-- A value of type `interface{}` as `encoding/json` produces it. -/
inductive JSONValue where
  | null
  | bool (b : Bool)
  | number (float64bits : Nat)
  | string (s : GoString)
  | array (items : List JSONValue)
  | object (fields : List (GoString × JSONValue))

/-- Type `map[string]interface{}`; `none` is the nil map. -/
abbrev JSONMap := Option (List (GoString × JSONValue))

/-- Type `MCPRequest`. -/
structure MCPRequest where
  Jsonrpc : GoString
  ID : Int
  Method : GoString
  Params : Option JSONValue

/-- Type `MCPError`. -/
structure MCPError where
  Code : Int
  Message : GoString
deriving DecidableEq

/-- Type `MCPResponse`; `Result` is the raw JSON of the result member. -/
structure MCPResponse where
  Jsonrpc : GoString
  ID : Int
  Result : GoString
  Error : Option MCPError
deriving DecidableEq

/-- Type `MCPTool`. -/
structure MCPTool where
  Name : GoString
  Description : Option GoString
  InputSchema : JSONMap

/-- Type `MCPToolAudit`. -/
structure MCPToolAudit where
  Name : GoString
  Description : GoString
  DescTokens : Int
  SchemaTokens : Int
  TotalTokens : Int
  HasLongDesc : Bool
deriving DecidableEq

/-- Type `MCPServerSummary`. -/
structure MCPServerSummary where
  ToolCount : Int
  AvgTokensPerTool : Int
  MaxTokensPerTool : Int
  MinTokensPerTool : Int
  LongDescTools : Int
deriving DecidableEq

/-- Type `BloatIssue`; the Go field `Type` is `IssueType` here. -/
structure BloatIssue where
  IssueType : GoString
  Description : GoString
  ToolName : GoString
  Tokens : Int
  Suggestion : GoString
deriving DecidableEq

/-- Type `MCPServerAudit`. -/
structure MCPServerAudit where
  Name : GoString
  Language : GoString
  Tools : List MCPToolAudit
  TotalTokens : Int
  Summary : MCPServerSummary
  Bloat : List BloatIssue
deriving DecidableEq

/-- Type `ServerConfig`. -/
structure ServerConfig where
  Name : GoString
  Language : GoString
  Command : List GoString
  WorkDir : GoString

/-- The parts of `encoding/json` the program calls.  Each field stands for one
call site; an error is the text of the Go `error`. -/
structure Codec where
  /-- The call `json.Marshal(tool.InputSchema)`. -/
  marshalSchema : JSONMap → Except GoString GoString
  /-- The call `json.Marshal(req)`. -/
  marshalRequest : MCPRequest → Except GoString GoString
  /-- The call `json.Unmarshal([]byte(line), &response)` on a zero
  `MCPResponse`. -/
  unmarshalResponse : GoString → Except GoString MCPResponse
  /-- The call `json.Unmarshal(response.Result, &result)` on a zero
  `ListToolsResult`, followed by `result.Tools`. -/
  unmarshalTools : GoString → Except GoString (List MCPTool)

/-! ## Tool analysis -/

/-- Function `analyzeTool`. -/
def analyzeTool (codec : Codec) (tool : MCPTool) (counter : TokenCounter) : MCPToolAudit :=
  let description : GoString :=
    match tool.Description with
    | some d => d
    | none => []
  -- schemaJson, _ := json.Marshal(tool.InputSchema): on error the bytes are nil
  let schemaJson : GoString :=
    match codec.marshalSchema tool.InputSchema with
    | .ok b => b
    | .error _ => []
  let schemaStr := schemaJson
  let toolAudit : MCPToolAudit :=
    { Name := tool.Name
      Description := description
      DescTokens := counter.EstimateTokens description
      SchemaTokens := counter.EstimateTokens schemaStr
      TotalTokens := 0
      HasLongDesc := false }
  let toolAudit := { toolAudit with
    TotalTokens := wrapInt64 (toolAudit.DescTokens + toolAudit.SchemaTokens) }
  let toolAudit := { toolAudit with HasLongDesc := decide (toolAudit.DescTokens > 50) }
  toolAudit

/-- The locals of the loop in `calculateSummary`. -/
structure SummaryLocals where
  maxTokens : Int
  minTokens : Int
  longDescCount : Int
deriving DecidableEq

/-- One iteration of the loop in `calculateSummary`. -/
def summaryStep (acc : SummaryLocals) (tool : MCPToolAudit) : SummaryLocals :=
  let maxTokens := if tool.TotalTokens > acc.maxTokens then tool.TotalTokens else acc.maxTokens
  let minTokens :=
    if tool.TotalTokens < acc.minTokens ∧ tool.TotalTokens > 0 then tool.TotalTokens
    else acc.minTokens
  let longDescCount := if tool.HasLongDesc then acc.longDescCount + 1 else acc.longDescCount
  { maxTokens := maxTokens, minTokens := minTokens, longDescCount := longDescCount }

/-- Function `calculateSummary`; the audit is passed by pointer in Go and is
returned here. -/
def calculateSummary (audit : MCPServerAudit) : MCPServerAudit :=
  let acc := audit.Tools.foldl summaryStep
    { maxTokens := 0, minTokens := 999999, longDescCount := 0 }
  let toolCount : Int := audit.Tools.length
  let minTokens := if toolCount = 0 then 0 else acc.minTokens
  let summary : MCPServerSummary :=
    { ToolCount := toolCount
      LongDescTools := acc.longDescCount
      MaxTokensPerTool := acc.maxTokens
      MinTokensPerTool := minTokens
      AvgTokensPerTool := 0 }
  if toolCount > 0 then
    { audit with
      Summary := { summary with AvgTokensPerTool := Int.tdiv audit.TotalTokens toolCount } }
  else
    { audit with Summary := summary }

/-- The `verbose_description` issue that `detectBloat` appends for a tool. -/
def verboseDescriptionIssue (tool : MCPToolAudit) : BloatIssue :=
  { IssueType := lit "verbose_description"
    Description := lit "Tool \x27" ++ tool.Name ++ lit "\x27 has very long description ("
      ++ fmtInt tool.DescTokens ++ lit " tokens)"
    ToolName := tool.Name
    Tokens := tool.DescTokens
    Suggestion := lit "Consider breaking into sections or using more concise language" }

/-- The `large_schema` issue that `detectBloat` appends for a tool. -/
def largeSchemaIssue (tool : MCPToolAudit) : BloatIssue :=
  { IssueType := lit "large_schema"
    Description := lit "Tool \x27" ++ tool.Name ++ lit "\x27 has large input schema ("
      ++ fmtInt tool.SchemaTokens ++ lit " tokens)"
    ToolName := tool.Name
    Tokens := tool.SchemaTokens
    Suggestion := lit "Consider simplifying parameter structure or descriptions" }

/-- One iteration of the loop in `detectBloat`, on the slice `audit.Bloat`. -/
def bloatStep (bloat : List BloatIssue) (tool : MCPToolAudit) : List BloatIssue :=
  let bloat := if tool.DescTokens > 100 then bloat ++ [verboseDescriptionIssue tool] else bloat
  let bloat := if tool.SchemaTokens > 200 then bloat ++ [largeSchemaIssue tool] else bloat
  bloat

/-- Function `detectBloat`. -/
def detectBloat (audit : MCPServerAudit) : MCPServerAudit :=
  { audit with Bloat := audit.Tools.foldl bloatStep audit.Bloat }

/-- The loop `for _, tool := range tools` of `auditMCPServer`. -/
def analyzeTools (codec : Codec) (counter : TokenCounter) (audit : MCPServerAudit)
    (tools : List MCPTool) : MCPServerAudit :=
  tools.foldl (fun audit tool =>
    let toolAudit := analyzeTool codec tool counter
    { audit with
      Tools := audit.Tools ++ [toolAudit]
      TotalTokens := wrapInt64 (audit.TotalTokens + toolAudit.TotalTokens) }) audit

/-- The audit value `auditMCPServer` starts from. -/
def newAudit (config : ServerConfig) : MCPServerAudit :=
  { Name := config.Name
    Language := config.Language
    Tools := []
    TotalTokens := 0
    Summary := { ToolCount := 0, AvgTokensPerTool := 0, MaxTokensPerTool := 0,
                 MinTokensPerTool := 0, LongDescTools := 0 }
    Bloat := [] }

/-- The tail of `auditMCPServer` once the tools have arrived: analyse each
tool, then `calculateSummary` and `detectBloat`. -/
def auditTools (codec : Codec) (counter : TokenCounter) (config : ServerConfig)
    (tools : List MCPTool) : MCPServerAudit :=
  detectBloat (calculateSummary (analyzeTools codec counter (newAudit config) tools))

/-! ## Reading a response -/

/-- What one call `reader.Read(buf)` does: it returns `n = len(data)` bytes
(at most `len(buf)`, by the contract of `io.Reader`) and an optional error,
or it never returns. -/
inductive ReadOutcome where
  | returns (data : GoString) (err : Option GoString)
  | blocks
deriving DecidableEq

/-- A reader, given by the outcome of each successive `Read` call made on
it, numbered from 0. -/
abbrev Reader := Nat → ReadOutcome

/-- Function `min` of the program. -/
def min (a b : Int) : Int := if a < b then a else b

/-- Function `strings.Split(s, "\n")`, scanning `s` with the piece under
construction in `cur`. -/
def splitNewlineAux : GoString → GoString → List GoString
  | [], cur => [cur]
  | c :: rest, cur =>
    if c = 10 then cur :: splitNewlineAux rest []
    else splitNewlineAux rest (cur ++ [c])

/-- Function `strings.Split(s, "\n")`. -/
def splitNewline (s : GoString) : List GoString := splitNewlineAux s []

/-- How the read loop of `readMCPResponse` is left. -/
inductive LoopExit where
  /-- Statement `return nil, fmt.Errorf("failed to read response: %w", err)`. -/
  | failed (err : GoString)
  /-- The loop ended, by `break` or by its condition, with this `totalData`. -/
  | finished (totalData : GoString)
  /-- A `Read` call never returned. -/
  | blocked
deriving DecidableEq

/-- The read loop of `readMCPResponse` together with what it did. -/
structure LoopRun where
  exit : LoopExit
  /-- Number of `Read` calls made. -/
  reads : Nat
  /-- Milliseconds spent in `time.Sleep`. -/
  slept : Nat
deriving DecidableEq

/-- The loop `for attempts < maxAttempts` of `readMCPResponse`.  The first
argument is `maxAttempts - attempts`, so the loop condition holds exactly
when it is a successor; `reads` and `slept` count what has been done so far,
and `pos` is the number of `Read` calls made on the reader before this
call of `readMCPResponse`. -/
def readLoop (reader : Reader) (pos : Nat) : Nat → Nat → Nat → Nat → LoopRun
  | 0, _, reads, slept => { exit := .finished [], reads := reads, slept := slept }
  | remaining + 1, attempts, reads, slept =>
    match reader (pos + reads) with
    | .blocks => { exit := .blocked, reads := reads + 1, slept := slept }
    | .returns data err =>
      let n := data.length
      match err with
      | some e =>
        if n = 0 then
          if attempts = 0 then
            { exit := .failed (lit "failed to read response: " ++ e),
              reads := reads + 1, slept := slept }
          else
            readLoop reader pos remaining (attempts + 1) (reads + 1) (slept + 500)
        else
          { exit := .finished data, reads := reads + 1, slept := slept }
      | none =>
        if n > 0 then
          { exit := .finished data, reads := reads + 1, slept := slept }
        else
          readLoop reader pos remaining (attempts + 1) (reads + 1) (slept + 200)

/-- The loop `for _, line := range lines` of `readMCPResponse`: the response
it returns, or `none` when it runs to the end. -/
def parseLines (codec : Codec) : List GoString → Option MCPResponse
  | [] => none
  | line :: rest =>
    let line := TrimSpace line
    if line = [] then parseLines codec rest
    else
      match codec.unmarshalResponse line with
      | .error _ => parseLines codec rest
      | .ok response => some response

/-- The part of `readMCPResponse` after the read loop, for a non-empty
`totalData`. -/
def parseResponse (codec : Codec) (totalData : GoString) : Except GoString MCPResponse :=
  let lines := splitNewline totalData
  match parseLines codec lines with
  | some response => .ok response
  | none =>
    .error (lit "no valid JSON response found in data: "
      ++ totalData.take (min 200 totalData.length).toNat)

/-- A call of `readMCPResponse` together with what it did; `result` is `none`
when the call never returns. -/
structure ReadRun where
  result : Option (Except GoString MCPResponse)
  reads : Nat
  slept : Nat
deriving DecidableEq

/-- Constant `maxAttempts` of `readMCPResponse`. -/
def maxAttempts : Nat := 3

/-- Function `readMCPResponse`, on a reader on which `pos` reads were made
before. -/
def readMCPResponse (codec : Codec) (reader : Reader) (pos : Nat) : ReadRun :=
  let run := readLoop reader pos maxAttempts 0 0 0
  match run.exit with
  | .blocked => { result := none, reads := run.reads, slept := run.slept }
  | .failed err => { result := some (.error err), reads := run.reads, slept := run.slept }
  | .finished totalData =>
    if totalData.length = 0 then
      { result := some (.error (lit "no data received after " ++ fmtInt maxAttempts
          ++ lit " attempts")),
        reads := run.reads, slept := run.slept }
    else
      { result := some (parseResponse codec totalData), reads := run.reads, slept := run.slept }

/-! ## The session -/

/-- What the session does to the child process and its pipes, in order. -/
inductive Event where
  | start
  | sleep (ms : Nat)
  | write (data : GoString)
  | readStdout (calls : Nat)
  | readStderr
  | closeStdin
  | kill
  | wait
deriving DecidableEq

/-- The environment of one audit: what the operating system and the child
process answer. -/
structure World where
  /-- Whether `os.Stat(config.WorkDir)` finds the directory. -/
  workDirExists : Bool
  stdinPipeErr : Option GoString
  stdoutPipeErr : Option GoString
  stderrPipeErr : Option GoString
  /-- The error of `cmd.Start()`. -/
  startErr : Option GoString
  /-- The error of the k-th `Write` on the child's standard input. -/
  writeErr : Nat → Option GoString
  /-- The child's standard output. -/
  stdout : Reader
  /-- The first `Read` on the child's standard error. -/
  stderr : ReadOutcome
  /-- In the `select` of `auditMCPServer`, when the session does deliver a
  result: whether the timer fires before it. -/
  timerFirst : Bool

/-- A call of `getMCPTools` together with what it did; `result` is `none` when
the call never returns. -/
structure SessionRun where
  events : List Event
  result : Option (Except GoString (List MCPTool))

/-- Function `sendMCPRequest`, as the k-th write on the pipe: the events and
the error. -/
def sendMCPRequest (codec : Codec) (w : World) (k : Nat) (req : MCPRequest) :
    List Event × Option GoString :=
  match codec.marshalRequest req with
  | .error err => ([], some err)
  | .ok data => ([Event.write (data ++ [10])], w.writeErr k)

/-- The `initialize` request of `getMCPTools`. -/
def initReq : MCPRequest :=
  { Jsonrpc := lit "2.0"
    ID := 1
    Method := lit "initialize"
    Params := some (.object
      [ (lit "protocolVersion", .string (lit "2024-11-05")),
        (lit "capabilities", .object []),
        (lit "clientInfo", .object
          [ (lit "name", .string (lit "mcp-audit-client")),
            (lit "version", .string (lit "1.0.0")) ]) ]) }

/-- The `tools/list` request of `getMCPTools`. -/
def toolsReq : MCPRequest :=
  { Jsonrpc := lit "2.0", ID := 2, Method := lit "tools/list", Params := none }

/-- The statements of `getMCPTools` after `defer`, up to its `return`. -/
def getMCPToolsBody (codec : Codec) (config : ServerConfig) (w : World) : SessionRun :=
  let startDelay := if config.Language = lit "Python" then 5000 else 3000
  let ev := [Event.sleep startDelay]
  -- select with default: the timer channel is not ready, and cmd.ProcessState
  -- is nil until Wait has run
  let processState : Option Bool := none
  if processState = some true then
    { events := ev, result := some (.error (lit "server process exited early")) }
  else
  let s1 := sendMCPRequest codec w 0 initReq
  let ev := ev ++ s1.1
  match s1.2 with
  | some err => { events := ev, result := some (.error (lit "failed to send initialize: " ++ err)) }
  | none =>
  let r1 := readMCPResponse codec w.stdout 0
  let ev := ev ++ [Event.readStdout r1.reads]
  match r1.result with
  | none => { events := ev, result := none }
  | some (.error err) =>
    let ev := ev ++ [Event.readStderr]
    match w.stderr with
    | .blocks => { events := ev, result := none }
    | .returns errBuf _ =>
      if errBuf.length > 0 then
        { events := ev, result := some (.error (lit "initialize failed, stderr: " ++ errBuf)) }
      else
        { events := ev,
          result := some (.error (lit "failed to read initialize response: " ++ err)) }
  | some (.ok _) =>
  let s2 := sendMCPRequest codec w 1 toolsReq
  let ev := ev ++ s2.1
  match s2.2 with
  | some err => { events := ev, result := some (.error (lit "failed to send tools/list: " ++ err)) }
  | none =>
  let r2 := readMCPResponse codec w.stdout r1.reads
  let ev := ev ++ [Event.readStdout r2.reads]
  match r2.result with
  | none => { events := ev, result := none }
  | some (.error err) =>
    { events := ev,
      result := some (.error (lit "failed to read tools/list response: " ++ err)) }
  | some (.ok response) =>
  match response.Error with
  | some e =>
    { events := ev, result := some (.error (lit "tools/list error: " ++ e.Message)) }
  | none =>
  match codec.unmarshalTools response.Result with
  | .error err =>
    { events := ev, result := some (.error (lit "failed to parse tools list: " ++ err)) }
  | .ok tools => { events := ev, result := some (.ok tools) }

/-- The deferred function of `getMCPTools`: `stdin.Close()`,
`cmd.Process.Kill()`, `cmd.Wait()`. -/
def cleanup : List Event := [Event.closeStdin, Event.kill, Event.wait]

/-- Function `getMCPTools`.  The deferred function is registered once
`cmd.Start()` has succeeded and runs when the function returns. -/
def getMCPTools (codec : Codec) (config : ServerConfig) (w : World) : SessionRun :=
  match w.stdinPipeErr with
  | some err =>
    { events := [], result := some (.error (lit "failed to create stdin pipe: " ++ err)) }
  | none =>
  match w.stdoutPipeErr with
  | some err =>
    { events := [], result := some (.error (lit "failed to create stdout pipe: " ++ err)) }
  | none =>
  match w.stderrPipeErr with
  | some err =>
    { events := [], result := some (.error (lit "failed to create stderr pipe: " ++ err)) }
  | none =>
  match w.startErr with
  | some err =>
    { events := [], result := some (.error (lit "failed to start server: " ++ err)) }
  | none =>
  let body := getMCPToolsBody codec config w
  match body.result with
  | none => { events := Event.start :: body.events, result := none }
  | some r => { events := Event.start :: body.events ++ cleanup, result := some r }

/-- A call of `auditMCPServer`: what it returns, and everything the session
it launched does, whether before or after `auditMCPServer` has returned. -/
structure AuditRun where
  audit : MCPServerAudit
  err : Option GoString
  session : List Event

/-- Function `auditMCPServer`.  The `select` takes the session's result when
there is one and the timer has not fired first; a session that never returns
leaves only the timer. -/
def auditMCPServer (codec : Codec) (config : ServerConfig) (counter : TokenCounter)
    (w : World) : AuditRun :=
  let audit := newAudit config
  if !w.workDirExists then
    { audit := audit,
      err := some (lit "server directory does not exist: " ++ config.WorkDir),
      session := [] }
  else
  let run := getMCPTools codec config w
  let timeout := if config.Language = lit "Python" then lit "45s" else lit "30s"
  let timedOut : AuditRun :=
    { audit := audit,
      err := some (lit "timeout after " ++ timeout ++ lit " waiting for server response"),
      session := run.events }
  match run.result with
  | none => timedOut
  | some r =>
    if w.timerFirst then timedOut
    else
      match r with
      | .error err => { audit := audit, err := some err, session := run.events }
      | .ok tools =>
        { audit := auditTools codec counter config tools, err := none, session := run.events }

/-! ## Sample inputs -/

/-- The four runes U+65E5 U+672C U+8A9E U+3067, three bytes each. -/
def fourWideRunes : GoString :=
  [0xE6, 0x97, 0xA5, 0xE6, 0x9C, 0xAC, 0xE8, 0xAA, 0x9E, 0xE3, 0x81, 0xA7]

/-- A string padded with ASCII and non-ASCII white space: a no-break space,
a tab, the eleven letters of "hello world", an ideographic space, a newline. -/
def paddedHello : GoString :=
  [0xC2, 0xA0, 0x09] ++ lit "hello world" ++ [0xE3, 0x80, 0x80, 0x0A]

/-- A stand-in for `encoding/json` that knows a handful of inputs and answers
on them as `encoding/json` does; everything else is an error. -/
def sampleCodec : Codec where
  marshalSchema := fun m =>
    match m with
    | none => .ok (lit "null")
    | some [] => .ok (lit "\x7b\x7d")
    | some [(k, .object [])] => .ok (lit "\x7b\"" ++ k ++ lit "\":\x7b\x7d\x7d")
    | _ => .error (lit "json: unsupported value")
  marshalRequest := fun req =>
    if req.Method = lit "initialize" then
      .ok (lit ("\x7b\"jsonrpc\":\"2.0\",\"id\":1,\"method\":\"initialize\",\"params\":\x7b"
        ++ "\"capabilities\":\x7b\x7d,\"clientInfo\":\x7b\"name\":\"mcp-audit-client\","
        ++ "\"version\":\"1.0.0\"\x7d,\"protocolVersion\":\"2024-11-05\"\x7d\x7d"))
    else if req.Method = lit "tools/list" then
      .ok (lit "\x7b\"jsonrpc\":\"2.0\",\"id\":2,\"method\":\"tools/list\"\x7d")
    else .error (lit "json: unsupported value")
  unmarshalResponse := fun line =>
    if line = lit "\x7b\"jsonrpc\":\"2.0\",\"id\":1,\"result\":\x7b\x7d\x7d" then
      .ok { Jsonrpc := lit "2.0", ID := 1, Result := lit "\x7b\x7d", Error := none }
    else if line = lit "\x7b\"jsonrpc\":\"2.0\",\"id\":2\x7d" then
      .ok { Jsonrpc := lit "2.0", ID := 2, Result := [], Error := none }
    else if line = lit "\x7b\"jsonrpc\":\"2.0\",\"id\":2,\"result\":\x7b\"tools\":[\x7b\"name\":\"ping\",\"inputSchema\":\x7b\x7d\x7d]\x7d\x7d" then
      .ok { Jsonrpc := lit "2.0", ID := 2,
            Result := lit "\x7b\"tools\":[\x7b\"name\":\"ping\",\"inputSchema\":\x7b\x7d\x7d]\x7d",
            Error := none }
    else if line = lit "\x7b\"jsonrpc\":\"2.0\",\"id\":2,\"error\":\x7b\"code\":-32601,\"message\":\"Method not found\"\x7d\x7d" then
      .ok { Jsonrpc := lit "2.0", ID := 2, Result := [],
            Error := some { Code := -32601, Message := lit "Method not found" } }
    else .error (lit "invalid character")
  unmarshalTools := fun raw =>
    if raw = lit "\x7b\"tools\":[\x7b\"name\":\"ping\",\"inputSchema\":\x7b\x7d\x7d]\x7d" then
      .ok [{ Name := lit "ping", Description := none, InputSchema := some [] }]
    else if raw = [] then .error (lit "unexpected end of JSON input")
    else .error (lit "invalid character")

/-- A tool with a 10-character description and a schema that serializes to
the 8 characters `{"a":{}}`. -/
def smallTool : MCPTool :=
  { Name := lit "echo", Description := some (lit "0123456789"),
    InputSchema := some [(lit "a", .object [])] }

/-- A tool without description and with the empty schema `{}`. -/
def pingTool : MCPTool :=
  { Name := lit "ping", Description := none, InputSchema := some [] }

/-- A tool whose description is `n` letters, with the empty schema. -/
def lettersTool (n : Nat) : MCPTool :=
  { Name := lit "t", Description := some (List.replicate n 0x61), InputSchema := some [] }

/-- A configuration as in `main`. -/
def sampleConfig : ServerConfig :=
  { Name := lit "osmmcp", Language := lit "Go",
    Command := [lit "go", lit "run", lit "./cmd/osmmcp"], WorkDir := lit "/srv/osmmcp" }

/-- A tool audit with the given token counts. -/
def toolAuditOf (name : GoString) (desc schema : Int) : MCPToolAudit :=
  { Name := name, Description := [], DescTokens := desc, SchemaTokens := schema,
    TotalTokens := desc + schema, HasLongDesc := decide (desc > 50) }

/-- What the claims about `detectBloat` say one tool contributes: first the
description issue, then the schema issue. -/
def toolIssues (tool : MCPToolAudit) : List BloatIssue :=
  (if tool.DescTokens > 100 then [verboseDescriptionIssue tool] else [])
    ++ (if tool.SchemaTokens > 200 then [largeSchemaIssue tool] else [])

/-- An audit holding the given tool audits and nothing else. -/
def auditOf (tools : List MCPToolAudit) : MCPServerAudit :=
  { newAudit sampleConfig with Tools := tools }

/-- Three tools whose totals are 10, 0 and 30 tokens. -/
def threeTools : List MCPTool := [lettersTool 40, pingTool, lettersTool 120]

/-- The audit of a service whose only tool is `pingTool`: no description and
the schema `{}`, which is 2 characters and so 0 tokens. -/
def pingAudit : MCPServerAudit :=
  auditTools sampleCodec NewTokenCounter sampleConfig [pingTool]

/-- The response `json.Unmarshal` decodes from a line once trimmed, if it
decodes. -/
def decodeLine (codec : Codec) (line : GoString) : Option MCPResponse :=
  match codec.unmarshalResponse (TrimSpace line) with
  | .ok response => some response
  | .error _ => none

/-- A line is blank or malformed: empty after trimming, or not decodable as
a response. -/
def skippedLine (codec : Codec) (line : GoString) : Prop :=
  TrimSpace line = [] ∨ decodeLine codec line = none

instance (codec : Codec) (line : GoString) : Decidable (skippedLine codec line) :=
  inferInstanceAs (Decidable (_ ∨ _))

/-- A line parses as `response`: not empty after trimming, and decoded as
`response`. -/
def parsedLine (codec : Codec) (line : GoString) (response : MCPResponse) : Prop :=
  TrimSpace line ≠ [] ∧ decodeLine codec line = some response

instance (codec : Codec) (line : GoString) (response : MCPResponse) :
    Decidable (parsedLine codec line response) :=
  inferInstanceAs (Decidable (_ ∧ _))

/-- A reader that delivers, in one read, a log line, a blank line, a
malformed line and then the `initialize` response of the sample codec
followed by a second parsable line. -/
def noisyReader : Reader := fun k =>
  if k = 0 then
    .returns (lit ("starting server\n\n  \x7bbroken\n  "
      ++ "\x7b\"jsonrpc\":\"2.0\",\"id\":1,\"result\":\x7b\x7d\x7d \r\n"
      ++ "\x7b\"jsonrpc\":\"2.0\",\"id\":2\x7d\n")) none
  else .blocks

/-- The bytes `noisyReader` delivers in its first read. -/
def noisyChunk : GoString :=
  lit ("starting server\n\n  \x7bbroken\n  "
      ++ "\x7b\"jsonrpc\":\"2.0\",\"id\":1,\"result\":\x7b\x7d\x7d \r\n"
      ++ "\x7b\"jsonrpc\":\"2.0\",\"id\":2\x7d\n")

/-- A read that returned no bytes, with or without an error. -/
def isEmptyRead : ReadOutcome → Bool
  | .returns [] _ => true
  | _ => false

/-- A reader at end of file: every read returns no bytes and `io.EOF`. -/
def eofReader : Reader := fun _ => .returns [] (some (lit "EOF"))

/-- A reader whose first two reads return nothing and whose third read
delivers the `initialize` response of the sample codec. -/
def slowReader : Reader := fun k =>
  if k = 2 then .returns (lit "\x7b\"jsonrpc\":\"2.0\",\"id\":1,\"result\":\x7b\x7d\x7d\n") none
  else .returns [] none

/-- The `initialize` response of the sample codec, as one line. -/
def initLine : GoString := lit "\x7b\"jsonrpc\":\"2.0\",\"id\":1,\"result\":\x7b\x7d\x7d\n"

/-- A world in which everything succeeds and the child answers the two
requests with the given lines, one per read. -/
def worldAnswering (toolsLine : GoString) : World :=
  { workDirExists := true
    stdinPipeErr := none
    stdoutPipeErr := none
    stderrPipeErr := none
    startErr := none
    writeErr := fun _ => none
    stdout := fun k =>
      if k = 0 then .returns initLine none
      else if k = 1 then .returns toolsLine none
      else .blocks
    stderr := .blocks
    timerFirst := false }

/-- The child answers `tools/list` with a response that has neither a result
nor an error. -/
def emptyAnswerWorld : World := worldAnswering (lit "\x7b\"jsonrpc\":\"2.0\",\"id\":2\x7d\n")

/-- The child answers `tools/list` with an error payload. -/
def errorAnswerWorld : World :=
  worldAnswering (lit "\x7b\"jsonrpc\":\"2.0\",\"id\":2,\"error\":\x7b\"code\":-32601,\"message\":\"Method not found\"\x7d\x7d\n")

/-- The child answers `tools/list` with the one tool `ping`. -/
def pingAnswerWorld : World :=
  worldAnswering (lit "\x7b\"jsonrpc\":\"2.0\",\"id\":2,\"result\":\x7b\"tools\":[\x7b\"name\":\"ping\",\"inputSchema\":\x7b\x7d\x7d]\x7d\x7d\n")

/-- The child starts and then stays silent: it writes nothing to its standard
output and does not exit, so a read on the pipe never returns. -/
def silentWorld : World :=
  { workDirExists := true
    stdinPipeErr := none
    stdoutPipeErr := none
    stderrPipeErr := none
    startErr := none
    writeErr := fun _ => none
    stdout := fun _ => .blocks
    stderr := .blocks
    timerFirst := false }

/-- The `initialize` response of the sample codec, decoded. -/
def initResponse : MCPResponse :=
  { Jsonrpc := lit "2.0", ID := 1, Result := lit "\x7b\x7d", Error := none }

/-- The `tools/list` response listing the one tool `ping`, decoded. -/
def pingResponse : MCPResponse :=
  { Jsonrpc := lit "2.0"
    ID := 2
    Result := lit "\x7b\"tools\":[\x7b\"name\":\"ping\",\"inputSchema\":\x7b\x7d\x7d]\x7d"
    Error := none }

/-- The `tools/list` response with neither result nor error, decoded. -/
def emptyResponse : MCPResponse :=
  { Jsonrpc := lit "2.0", ID := 2, Result := [], Error := none }

/-- The names of the tools a call of `getMCPTools` returned, or its error. -/
def toolNames (r : Option (Except GoString (List MCPTool))) :
    Option (Except GoString (List GoString)) :=
  match r with
  | none => none
  | some (.error e) => some (.error e)
  | some (.ok tools) => some (.ok (tools.map fun t => t.Name))

/-- The process was started: the three pipes were created and `cmd.Start()`
returned no error. -/
def started (w : World) : Prop :=
  w.stdinPipeErr = none ∧ w.stdoutPipeErr = none ∧ w.stderrPipeErr = none ∧ w.startErr = none

instance (w : World) : Decidable (started w) :=
  inferInstanceAs (Decidable (_ ∧ _ ∧ _ ∧ _))

/-- The event belongs to the deferred cleanup of `getMCPTools`. -/
def isCleanup : Event → Bool
  | .closeStdin => true
  | .kill => true
  | .wait => true
  | _ => false

/-- The size of the buffer `buf := make([]byte, 64*1024)` of
`readMCPResponse`: one `Read` returns at most this many bytes. -/
def bufSize : Nat := 64 * 1024

/-- The first part of the `initialize` response line, as a first read
delivers it when the line arrives in two pieces. -/
def splitHead : GoString := lit "\x7b\"jsonrpc\":\"2.0\","

/-- The rest of the `initialize` response line. -/
def splitTail : GoString := lit "\"id\":1,\"result\":\x7b\x7d\x7d\n"

/-- A reader that delivers the `initialize` response line in two reads. -/
def splitReader : Reader := fun k =>
  if k = 0 then .returns splitHead none
  else if k = 1 then .returns splitTail none
  else .blocks

/-- A reader that delivers the same first piece and then nothing more. -/
def headOnlyReader : Reader := fun k =>
  if k = 0 then .returns splitHead none else .blocks

/-- A reader that delivers the whole `initialize` response line in one
read. -/
def wholeReader : Reader := fun k =>
  if k = 0 then .returns (splitHead ++ splitTail) none else .blocks

/-! ## Theorems -/

theorem upShift_spec (a b : Nat) : ∀ (fuel s : Nat),
    2 ^ 52 * b ≤ a * 2 ^ (s + fuel) → 2 ^ 52 * b ≤ a * 2 ^ (upShift a b fuel s) := by
  intro fuel
  induction fuel with
  | zero => intro s h; simpa [upShift] using h
  | succ f ih =>
    intro s h
    unfold upShift
    split
    · apply ih
      have : s + 1 + f = s + (f + 1) := by omega
      rw [this]; exact h
    · omega

theorem ofQuot_exact (a b : Nat) (ha : 0 < a) (hb : 0 < b) (hlt : a < 2 ^ 53 * b)
    (hdvd : ∀ s, 2 ^ 52 * b ≤ a * 2 ^ s → b ∣ a * 2 ^ s) :
    (Float64.ofQuot a b).toInt = ((a / b : Nat) : Int) := by
  have hk : downShift a b a 0 = 0 := by
    obtain ⟨a', rfl⟩ : ∃ a', a = a' + 1 := ⟨a - 1, by omega⟩
    unfold downShift
    simp
    omega
  have hfuel : 2 ^ 52 * b ≤ a * 2 ^ (0 + (53 + b)) := by
    have h1 : b < 2 ^ b := Nat.lt_two_pow b
    have h2 : 2 ^ (0 + (53 + b)) = 2 ^ 53 * 2 ^ b := by rw [Nat.zero_add, pow_add]
    rw [h2]
    calc 2 ^ 52 * b ≤ 2 ^ 53 * 2 ^ b := by
          apply Nat.mul_le_mul (by norm_num) h1.le
      _ = 1 * (2 ^ 53 * 2 ^ b) := by ring
      _ ≤ a * (2 ^ 53 * 2 ^ b) := Nat.mul_le_mul_right _ ha
  have hs := upShift_spec a b (53 + b) 0 hfuel
  have hd := hdvd _ hs
  obtain ⟨m, hm⟩ := hd
  unfold Float64.ofQuot
  rw [if_neg (by omega)]
  simp only [hk, if_true, Float64.toInt]
  congr 1
  have hrhe : roundHalfEven (a * 2 ^ upShift a b (53 + b) 0) b = m := by
    unfold roundHalfEven
    rw [hm]
    simp [Nat.mul_div_cancel_left m hb, Nat.mul_mod_right, hb]
  rw [hrhe]
  have h2pos : 0 < 2 ^ upShift a b (53 + b) 0 := by positivity
  have : m = a * 2 ^ upShift a b (53 + b) 0 / b := by
    rw [hm, Nat.mul_div_cancel_left m hb]
  rw [this, Nat.div_div_eq_div_mul, Nat.mul_div_mul_right _ _ h2pos]


theorem ofInt_small (n : Nat) (hn : 0 < n) (hlt : n < 2 ^ 53) :
    ∃ s, Float64.ofInt n = ⟨n * 2 ^ s, s⟩ := by
  have hk : downShift n 1 n 0 = 0 := by
    obtain ⟨a, rfl⟩ : ∃ a, n = a + 1 := ⟨n - 1, by omega⟩
    unfold downShift
    simp
    omega
  refine ⟨upShift n 1 (53 + 1) 0, ?_⟩
  unfold Float64.ofInt Float64.ofQuot
  rw [if_neg (by omega)]
  simp only [hk, if_true]
  simp [roundHalfEven, Nat.mod_one]

theorem quarter_exact (n : Nat) (hlt : n < 2 ^ 53) :
    (Float64.div (Float64.ofInt n) NewTokenCounter.CharsPerToken).toInt = ((n / 4 : Nat) : Int) := by
  rcases Nat.eq_zero_or_pos n with h0 | hpos
  · subst h0; rfl
  · obtain ⟨s, hs⟩ := ofInt_small n hpos hlt
    rw [hs]
    unfold Float64.div NewTokenCounter
    simp only [pow_zero, Nat.mul_one]
    have h2 : 0 < 2 ^ s := by positivity
    rw [ofQuot_exact (n * 2 ^ s) (4 * 2 ^ s) (Nat.mul_pos hpos h2) (by positivity)]
    · rw [Nat.mul_div_mul_right _ _ h2]
    · calc n * 2 ^ s < 2 ^ 53 * 2 ^ s := Nat.mul_lt_mul_of_pos_right hlt h2
        _ ≤ 2 ^ 53 * (4 * 2 ^ s) := by nlinarith
    · intro t ht
      have h54 : 2 ^ 54 ≤ n * 2 ^ t := by
        have : 2 ^ 52 * (4 * 2 ^ s) = 2 ^ 54 * 2 ^ s := by ring
        rw [this] at ht
        have : n * 2 ^ s * 2 ^ t = (n * 2 ^ t) * 2 ^ s := by ring
        rw [this] at ht
        exact Nat.le_of_mul_le_mul_right ht h2
      have ht2 : 2 ≤ t := by
        by_contra hc
        have : t = 0 ∨ t = 1 := by omega
        rcases this with rfl | rfl <;> omega
      obtain ⟨u, rfl⟩ : ∃ u, t = u + 2 := ⟨t - 2, by omega⟩
      refine ⟨n * 2 ^ u, ?_⟩
      ring

theorem decode_size_pos (s : GoString) (h : s ≠ []) : 1 ≤ (DecodeRuneInString s).2 := by
  have hl : ¬ s.length < 1 := by
    cases s with
    | nil => exact absurd rfl h
    | cons c t => simp
  unfold DecodeRuneInString
  simp only [hl, if_false]
  split_ifs <;> simp

theorem runeCountLoop_le : ∀ (fuel : Nat) (s : GoString) (n : Nat),
    runeCountLoop fuel s n ≤ n + s.length := by
  intro fuel
  induction fuel with
  | zero => intro s n; simp [runeCountLoop]
  | succ f ih =>
    intro s n
    cases s with
    | nil => simp [runeCountLoop]
    | cons c rest =>
      have h1 := ih rest (n + 1)
      have hd : ∀ k, runeCountLoop f (rest.drop k) (n + 1) ≤ n + (rest.length + 1) := by
        intro k
        have := ih (rest.drop k) (n + 1)
        have hk : (rest.drop k).length ≤ rest.length := by simp
        omega
      simp only [runeCountLoop, List.length_cons]
      split_ifs <;> first | omega | exact hd _

theorem RuneCountInString_le (s : GoString) : RuneCountInString s ≤ s.length := by
  have := runeCountLoop_le s.length s 0
  simpa [RuneCountInString] using this

theorem trimLeftLoop_length_le : ∀ (fuel : Nat) (s : GoString),
    (trimLeftLoop fuel s).length ≤ s.length := by
  intro fuel
  induction fuel with
  | zero => intro s; simp [trimLeftLoop]
  | succ f ih =>
    intro s
    simp only [trimLeftLoop]
    split_ifs
    · simp
    · have := ih (s.drop (DecodeRuneInString s).2)
      have hk : (s.drop (DecodeRuneInString s).2).length ≤ s.length := by simp
      omega
    · exact le_refl _

theorem TrimRightFunc_length_le (s : GoString) : (TrimRightFunc s).length ≤ s.length := by
  unfold TrimRightFunc
  simp only
  split_ifs <;> simp

theorem TrimFunc_length_le (s : GoString) : (TrimFunc s).length ≤ s.length := by
  unfold TrimFunc TrimLeftFunc
  exact le_trans (TrimRightFunc_length_le _) (trimLeftLoop_length_le _ _)

theorem trimSpaceStart_length_le : ∀ s : GoString, (trimSpaceStart s).1.length ≤ s.length := by
  intro s
  induction s with
  | nil => simp [trimSpaceStart]
  | cons c rest ih =>
    simp only [trimSpaceStart]
    split_ifs
    · simp
    · simp only [List.length_cons]; omega
    · simp

theorem trimSpaceStop_length_le (t : GoString) : ∀ stop, (trimSpaceStop t stop).length ≤ t.length := by
  intro stop
  induction stop with
  | zero => simp [trimSpaceStop]
  | succ k ih =>
    simp only [trimSpaceStop]
    split_ifs
    · exact le_trans (TrimRightFunc_length_le _) (by simp)
    · exact ih
    · simp

theorem TrimSpace_length_le (s : GoString) : (TrimSpace s).length ≤ s.length := by
  have h := trimSpaceStart_length_le s
  unfold TrimSpace
  split
  · rename_i t heq
    rw [heq] at h
    exact le_trans (TrimFunc_length_le t) h
  · rename_i t heq
    rw [heq] at h
    exact le_trans (trimSpaceStop_length_le t _) h

theorem trimLeftLoop_allSpace : ∀ (fuel : Nat) (s : GoString), s.length ≤ fuel →
    (runesLoop fuel s).all IsSpace = true → trimLeftLoop fuel s = [] := by
  intro fuel
  induction fuel with
  | zero =>
    intro s hl _
    have : s = [] := List.length_eq_zero.mp (by omega)
    subst this; rfl
  | succ f ih =>
    intro s hl hall
    by_cases hs : s.length = 0
    · simp [trimLeftLoop, hs]
    · have hne : s ≠ [] := fun h => hs (by simp [h])
      have hpos := decode_size_pos s hne
      simp only [runesLoop, hs, if_false, List.all_cons, Bool.and_eq_true] at hall
      simp only [trimLeftLoop, hs, if_false, hall.1, if_true]
      apply ih _ _ hall.2
      simp only [List.length_drop]
      omega

theorem TrimRightFunc_nil : TrimRightFunc [] = [] := by decide

theorem decode_ascii (c : UInt8) (rest : GoString) (h : c.toNat < 0x80) :
    DecodeRuneInString (c :: rest) = (c.toNat, 1) := by
  simp [DecodeRuneInString, byteAt, first, h]

theorem IsSpace_ascii (c : Nat) (h : c < 0x80) : IsSpace c = asciiSpace c := by
  have h1 : c ≤ 0xFF := by omega
  have h2 : c ≠ 0x85 := by omega
  have h3 : c ≠ 0xA0 := by omega
  simp [IsSpace, asciiSpace, h1, h2, h3]

theorem TrimSpace_allSpace : ∀ s : GoString, (runes s).all IsSpace = true → TrimSpace s = [] := by
  intro s
  induction s with
  | nil => intro _; rfl
  | cons c rest ih =>
    intro hall
    by_cases hc : c.toNat ≥ RuneSelf
    · have h1 : trimSpaceStart (c :: rest) = (c :: rest, true) := by
        simp [trimSpaceStart, hc]
      unfold TrimSpace
      rw [h1]
      simp only [TrimFunc, TrimLeftFunc]
      rw [trimLeftLoop_allSpace _ _ (le_refl _) hall]
      exact TrimRightFunc_nil
    · have hlt : c.toNat < 0x80 := by simpa [RuneSelf] using hc
      have hr : runes (c :: rest) = c.toNat :: runes rest := by
        simp [runes, runesLoop, decode_ascii c rest hlt]
      rw [hr] at hall
      simp only [List.all_cons, Bool.and_eq_true] at hall
      have hsp : asciiSpace c.toNat = true := by
        rw [← IsSpace_ascii _ hlt]; exact hall.1
      have h1 : trimSpaceStart (c :: rest) = trimSpaceStart rest := by
        simp [trimSpaceStart, hc, hsp]
      have : TrimSpace (c :: rest) = TrimSpace rest := by
        unfold TrimSpace
        rw [h1]
      rw [this]
      exact ih hall.2


theorem tdiv_four_cast (n : Nat) : Int.tdiv (n : Int) 4 = ((n / 4 : Nat) : Int) := by
  have h : (4 : Int) = ((4 : Nat) : Int) := rfl
  rw [h, ← Int.ofNat_tdiv]

theorem EstimateTokens_eq_tdiv (s : GoString) (hlen : s.length < 2 ^ 53) :
    NewTokenCounter.EstimateTokens s = Int.tdiv (RuneCountInString (TrimSpace s) : Int) 4 := by
  have hcount : RuneCountInString (TrimSpace s) < 2 ^ 53 :=
    lt_of_le_of_lt (le_trans (RuneCountInString_le _) (TrimSpace_length_le s)) hlen
  rw [tdiv_four_cast]
  exact quarter_exact _ hcount

/-- Claim C1.  With `CharsPerToken = 4.0`, `EstimateTokens` of a string (of
fewer than 2^53 bytes, as every string a Go program holds is) is the number of
runes of the string trimmed by `strings.TrimSpace`, divided by 4 and truncated
toward zero.  A string whose runes are all white space, and so the empty
string, gives 0; four runes of three bytes each (12 bytes) give 1, not 3. -/
theorem EstimateTokens_eq_trimmed_runes_div_four (s : GoString) (hlen : s.length < 2 ^ 53) :
    NewTokenCounter.EstimateTokens s = Int.tdiv (RuneCountInString (TrimSpace s) : Int) 4
    ∧ ((runes s).all IsSpace = true → NewTokenCounter.EstimateTokens s = 0)
    ∧ NewTokenCounter.EstimateTokens [] = 0
    ∧ fourWideRunes.length = 12
    ∧ RuneCountInString (TrimSpace fourWideRunes) = 4
    ∧ NewTokenCounter.EstimateTokens fourWideRunes = 1 := by
  have hmain := EstimateTokens_eq_tdiv s hlen
  refine ⟨hmain, ?_, by decide, by decide, by decide, by decide⟩
  intro hall
  rw [hmain, TrimSpace_allSpace s hall]
  rfl

/-- Claim C1 at a string padded with white space on both sides: the eleven
runes that remain give 2 tokens. -/
theorem EstimateTokens_eq_trimmed_runes_div_four_witness :
    NewTokenCounter.EstimateTokens paddedHello
      = Int.tdiv (RuneCountInString (TrimSpace paddedHello) : Int) 4
    ∧ RuneCountInString (TrimSpace paddedHello) = 11
    ∧ paddedHello.length = 18 :=
  ⟨(EstimateTokens_eq_trimmed_runes_div_four paddedHello (by decide)).1, by decide, by decide⟩

theorem wrapInt64_of_fits (x : Int) (h0 : -(2 ^ 63) ≤ x) (h1 : x < 2 ^ 63) : wrapInt64 x = x := by
  unfold wrapInt64
  omega

theorem EstimateTokens_bounds (s : GoString) (hlen : s.length < 2 ^ 53) :
    0 ≤ NewTokenCounter.EstimateTokens s ∧ NewTokenCounter.EstimateTokens s < 2 ^ 51 := by
  have hcount : RuneCountInString (TrimSpace s) < 2 ^ 53 :=
    lt_of_le_of_lt (le_trans (RuneCountInString_le _) (TrimSpace_length_le s)) hlen
  have h := quarter_exact _ hcount
  have h' : NewTokenCounter.EstimateTokens s
      = ((RuneCountInString (TrimSpace s) / 4 : Nat) : Int) := h
  rw [h']
  constructor
  · exact Int.ofNat_nonneg _
  · have : RuneCountInString (TrimSpace s) / 4 < 2 ^ 51 := by omega
    exact_mod_cast this

/-- Claim C2.  For a tool whose description and serialized schema are Go
strings (shorter than 2^53 bytes), `analyzeTool` with the program's counter
returns an audit whose `DescTokens` is the estimate of the description (of the
empty string when there is none), whose `SchemaTokens` is the estimate of the
schema's JSON serialization, and whose `TotalTokens` is exactly their sum; 10
and 8 characters give 2, 2 and 4. -/
theorem analyzeTool_token_counts (codec : Codec) (tool : MCPTool) (js : GoString)
    (hjs : codec.marshalSchema tool.InputSchema = .ok js)
    (hdesc : (tool.Description.getD []).length < 2 ^ 53) (hschema : js.length < 2 ^ 53) :
    (analyzeTool codec tool NewTokenCounter).DescTokens
        = NewTokenCounter.EstimateTokens (tool.Description.getD [])
    ∧ (analyzeTool codec tool NewTokenCounter).SchemaTokens = NewTokenCounter.EstimateTokens js
    ∧ (analyzeTool codec tool NewTokenCounter).TotalTokens
        = (analyzeTool codec tool NewTokenCounter).DescTokens
          + (analyzeTool codec tool NewTokenCounter).SchemaTokens
    ∧ (RuneCountInString (TrimSpace (tool.Description.getD [])) = 10 →
        RuneCountInString (TrimSpace js) = 8 →
        (analyzeTool codec tool NewTokenCounter).DescTokens = 2
        ∧ (analyzeTool codec tool NewTokenCounter).SchemaTokens = 2
        ∧ (analyzeTool codec tool NewTokenCounter).TotalTokens = 4) := by
  have hd : (analyzeTool codec tool NewTokenCounter).DescTokens
      = NewTokenCounter.EstimateTokens (tool.Description.getD []) := by
    cases hD : tool.Description <;> simp [analyzeTool, hD]
  have hs : (analyzeTool codec tool NewTokenCounter).SchemaTokens
      = NewTokenCounter.EstimateTokens js := by
    simp [analyzeTool, hjs]
  have ht : (analyzeTool codec tool NewTokenCounter).TotalTokens
      = wrapInt64 ((analyzeTool codec tool NewTokenCounter).DescTokens
          + (analyzeTool codec tool NewTokenCounter).SchemaTokens) := rfl
  have b1 := EstimateTokens_bounds _ hdesc
  have b2 := EstimateTokens_bounds _ hschema
  have hsum : (analyzeTool codec tool NewTokenCounter).TotalTokens
      = (analyzeTool codec tool NewTokenCounter).DescTokens
        + (analyzeTool codec tool NewTokenCounter).SchemaTokens := by
    rw [ht, hd, hs]
    apply wrapInt64_of_fits <;> omega
  refine ⟨hd, hs, hsum, ?_⟩
  intro h10 h8
  have e1 := EstimateTokens_eq_tdiv _ hdesc
  have e2 := EstimateTokens_eq_tdiv _ hschema
  rw [h10] at e1
  rw [h8] at e2
  have d2 : (analyzeTool codec tool NewTokenCounter).DescTokens = 2 := by rw [hd, e1]; rfl
  have s2 : (analyzeTool codec tool NewTokenCounter).SchemaTokens = 2 := by rw [hs, e2]; rfl
  refine ⟨d2, s2, ?_⟩
  rw [hsum, d2, s2]
  rfl

/-- Claim C2 at a tool with a 10-character description and the 8-character
schema `{"a":{}}`: 2, 2 and 4 tokens. -/
theorem analyzeTool_token_counts_witness :
    (analyzeTool sampleCodec smallTool NewTokenCounter).DescTokens = 2
    ∧ (analyzeTool sampleCodec smallTool NewTokenCounter).SchemaTokens = 2
    ∧ (analyzeTool sampleCodec smallTool NewTokenCounter).TotalTokens = 4 :=
  (analyzeTool_token_counts sampleCodec smallTool (lit "\x7b\"a\":\x7b\x7d\x7d")
    (by decide) (by decide) (by decide)).2.2.2 (by decide) (by decide)

theorem foldl_bloatStep (tools : List MCPToolAudit) : ∀ bloat : List BloatIssue,
    tools.foldl bloatStep bloat = bloat ++ tools.flatMap toolIssues := by
  induction tools with
  | nil => intro bloat; simp
  | cons t ts ih =>
    intro bloat
    rw [List.foldl_cons, ih]
    simp only [List.flatMap_cons, bloatStep, toolIssues]
    split_ifs <;> simp

/-- Claim C3.  `detectBloat` appends to the audit's issues, in tool order,
for each tool one `verbose_description` issue (with the tool's name and
`DescTokens`) exactly when `DescTokens > 100`, then one `large_schema` issue
(with the tool's name and `SchemaTokens`) exactly when `SchemaTokens > 200`;
on an empty issue list the result is exactly that concatenation.  The
thresholds are strict: 100 and 200 give nothing, 101 and 201 give one issue
each, and no tools give no issues. -/
theorem detectBloat_issues_in_tool_order (audit : MCPServerAudit) (t : MCPToolAudit) :
    (detectBloat audit).Bloat = audit.Bloat ++ audit.Tools.flatMap (fun tool =>
        (if tool.DescTokens > 100 then [verboseDescriptionIssue tool] else [])
          ++ (if tool.SchemaTokens > 200 then [largeSchemaIssue tool] else []))
    ∧ (detectBloat { audit with Bloat := [] }).Bloat = audit.Tools.flatMap toolIssues
    ∧ ((verboseDescriptionIssue t).IssueType = lit "verbose_description"
        ∧ (verboseDescriptionIssue t).ToolName = t.Name
        ∧ (verboseDescriptionIssue t).Tokens = t.DescTokens)
    ∧ ((largeSchemaIssue t).IssueType = lit "large_schema"
        ∧ (largeSchemaIssue t).ToolName = t.Name
        ∧ (largeSchemaIssue t).Tokens = t.SchemaTokens)
    ∧ (detectBloat (auditOf [{ t with DescTokens := 100, SchemaTokens := 200 }])).Bloat = []
    ∧ (detectBloat (auditOf [{ t with DescTokens := 101, SchemaTokens := 200 }])).Bloat
        = [verboseDescriptionIssue { t with DescTokens := 101, SchemaTokens := 200 }]
    ∧ (detectBloat (auditOf [{ t with DescTokens := 100, SchemaTokens := 201 }])).Bloat
        = [largeSchemaIssue { t with DescTokens := 100, SchemaTokens := 201 }]
    ∧ (detectBloat (auditOf [{ t with DescTokens := 101, SchemaTokens := 201 }])).Bloat
        = [verboseDescriptionIssue { t with DescTokens := 101, SchemaTokens := 201 },
           largeSchemaIssue { t with DescTokens := 101, SchemaTokens := 201 }]
    ∧ (detectBloat (auditOf [])).Bloat = [] := by
  have hgen : ∀ a : MCPServerAudit,
      (detectBloat a).Bloat = a.Bloat ++ a.Tools.flatMap toolIssues := by
    intro a
    simp only [detectBloat]
    exact foldl_bloatStep a.Tools a.Bloat
  refine ⟨hgen audit, ?_, ⟨rfl, rfl, rfl⟩, ⟨rfl, rfl, rfl⟩, ?_, ?_, ?_, ?_, ?_⟩
  · rw [hgen]; simp
  · rw [hgen]; simp [auditOf, newAudit, toolIssues]
  · rw [hgen]; simp [auditOf, newAudit, toolIssues]
  · rw [hgen]; simp [auditOf, newAudit, toolIssues]
  · rw [hgen]; simp [auditOf, newAudit, toolIssues]
  · rw [hgen]; simp [auditOf, newAudit]

set_option maxRecDepth 100000 in
theorem estimate_203_letters :
    NewTokenCounter.EstimateTokens (List.replicate 203 0x61) = 50 := by decide

set_option maxRecDepth 100000 in
theorem estimate_204_letters :
    NewTokenCounter.EstimateTokens (List.replicate 204 0x61) = 51 := by decide

theorem analyzeTool_DescTokens (codec : Codec) (tool : MCPTool) (counter : TokenCounter) :
    (analyzeTool codec tool counter).DescTokens
      = counter.EstimateTokens (tool.Description.getD []) := by
  cases hD : tool.Description <;> simp [analyzeTool, hD]

/-- Claim C6.  The audit `analyzeTool` returns has `HasLongDesc` true exactly
when its `DescTokens` exceeds 50: a description of 203 letters is estimated at
50 tokens and not flagged, one of 204 letters at 51 tokens and flagged. -/
theorem analyzeTool_HasLongDesc_iff (codec : Codec) (tool : MCPTool) (counter : TokenCounter) :
    ((analyzeTool codec tool counter).HasLongDesc = true
        ↔ (analyzeTool codec tool counter).DescTokens > 50)
    ∧ (analyzeTool codec (lettersTool 203) NewTokenCounter).DescTokens = 50
    ∧ (analyzeTool codec (lettersTool 203) NewTokenCounter).HasLongDesc = false
    ∧ (analyzeTool codec (lettersTool 204) NewTokenCounter).DescTokens = 51
    ∧ (analyzeTool codec (lettersTool 204) NewTokenCounter).HasLongDesc = true := by
  have hiff : ∀ tl : MCPTool, ∀ c : TokenCounter, ((analyzeTool codec tl c).HasLongDesc = true
      ↔ (analyzeTool codec tl c).DescTokens > 50) := by
    intro tl c
    simp [analyzeTool]
  have e203 : (analyzeTool codec (lettersTool 203) NewTokenCounter).DescTokens = 50 := by
    rw [analyzeTool_DescTokens]
    exact estimate_203_letters
  have e204 : (analyzeTool codec (lettersTool 204) NewTokenCounter).DescTokens = 51 := by
    rw [analyzeTool_DescTokens]
    exact estimate_204_letters
  refine ⟨hiff tool counter, e203, ?_, e204, ?_⟩
  · have h := hiff (lettersTool 203) NewTokenCounter
    rw [e203] at h
    cases hb : (analyzeTool codec (lettersTool 203) NewTokenCounter).HasLongDesc
    · rfl
    · exact absurd (h.mp hb) (by decide)
  · have h := hiff (lettersTool 204) NewTokenCounter
    rw [e204] at h
    exact h.mpr (by decide)

theorem foldl_append_total (xs : List MCPToolAudit) : ∀ a0 : MCPServerAudit,
    (∀ x ∈ xs, 0 ≤ x.TotalTokens) → 0 ≤ a0.TotalTokens →
    a0.TotalTokens + (xs.map fun x => x.TotalTokens).sum < 2 ^ 63 →
    (xs.foldl (fun (a : MCPServerAudit) x =>
        { a with Tools := a.Tools ++ [x], TotalTokens := wrapInt64 (a.TotalTokens + x.TotalTokens) })
        a0).Tools = a0.Tools ++ xs
    ∧ (xs.foldl (fun (a : MCPServerAudit) x =>
        { a with Tools := a.Tools ++ [x], TotalTokens := wrapInt64 (a.TotalTokens + x.TotalTokens) })
        a0).TotalTokens = a0.TotalTokens + (xs.map fun x => x.TotalTokens).sum := by
  induction xs with
  | nil => intro a0 _ _ _; simp
  | cons x xs ih =>
    intro a0 hnn h0 hfit
    have hx : 0 ≤ x.TotalTokens := hnn x (List.mem_cons_self _ _)
    have hxs : ∀ u ∈ xs, 0 ≤ u.TotalTokens := fun u hu => hnn u (List.mem_cons_of_mem _ hu)
    have hsum_nn : 0 ≤ (xs.map fun x => x.TotalTokens).sum := by
      apply List.sum_nonneg
      intro y hy
      obtain ⟨u, hu, rfl⟩ := List.mem_map.mp hy
      exact hxs u hu
    rw [List.map_cons, List.sum_cons] at hfit ⊢
    have hw : wrapInt64 (a0.TotalTokens + x.TotalTokens) = a0.TotalTokens + x.TotalTokens := by
      apply wrapInt64_of_fits <;> omega
    rw [List.foldl_cons]
    obtain ⟨h1, h2⟩ := ih
      { a0 with Tools := a0.Tools ++ [x], TotalTokens := wrapInt64 (a0.TotalTokens + x.TotalTokens) }
      hxs (by show 0 ≤ wrapInt64 _; rw [hw]; omega)
      (by show wrapInt64 _ + _ < _; rw [hw]; omega)
    refine ⟨?_, ?_⟩
    · rw [h1]; simp
    · rw [h2]; show wrapInt64 _ + _ = _; rw [hw]; omega

theorem analyzeTools_fold (codec : Codec) (counter : TokenCounter) (tools : List MCPTool)
    (a0 : MCPServerAudit)
    (hnn : ∀ t ∈ tools, 0 ≤ (analyzeTool codec t counter).TotalTokens)
    (h0 : 0 ≤ a0.TotalTokens)
    (hfit : a0.TotalTokens
      + (tools.map fun t => (analyzeTool codec t counter).TotalTokens).sum < 2 ^ 63) :
    (analyzeTools codec counter a0 tools).Tools
        = a0.Tools ++ tools.map (fun t => analyzeTool codec t counter)
    ∧ (analyzeTools codec counter a0 tools).TotalTokens
        = a0.TotalTokens + (tools.map fun t => (analyzeTool codec t counter).TotalTokens).sum := by
  have hmap : analyzeTools codec counter a0 tools
      = (tools.map fun t => analyzeTool codec t counter).foldl (fun (a : MCPServerAudit) x =>
        { a with Tools := a.Tools ++ [x], TotalTokens := wrapInt64 (a.TotalTokens + x.TotalTokens) })
        a0 := by
    unfold analyzeTools
    rw [List.foldl_map]
  have hsum : (tools.map fun t => (analyzeTool codec t counter).TotalTokens)
      = ((tools.map fun t => analyzeTool codec t counter).map fun x => x.TotalTokens) := by
    rw [List.map_map]; rfl
  rw [hmap, hsum]
  apply foldl_append_total
  · intro x hx
    obtain ⟨u, hu, rfl⟩ := List.mem_map.mp hx
    exact hnn u hu
  · exact h0
  · rw [← hsum]; exact hfit

theorem calculateSummary_fields (audit : MCPServerAudit) :
    (calculateSummary audit).Tools = audit.Tools
    ∧ (calculateSummary audit).TotalTokens = audit.TotalTokens
    ∧ (calculateSummary audit).Summary.AvgTokensPerTool
        = (if audit.Tools = [] then 0 else Int.tdiv audit.TotalTokens audit.Tools.length) := by
  unfold calculateSummary
  cases hT : audit.Tools with
  | nil => simp
  | cons t ts =>
    have : ((List.length (t :: ts) : Nat) : Int) > 0 := by
      have : (0 : Int) ≤ (ts.length : Int) := Int.ofNat_nonneg _
      rw [List.length_cons]; push_cast; omega
    simp only [this, if_true]
    simp

set_option maxRecDepth 100000 in
theorem threeTools_summary :
    (calculateSummary (analyzeTools sampleCodec NewTokenCounter (newAudit sampleConfig)
        threeTools)).Tools.map (fun t => t.TotalTokens) = [10, 0, 30]
    ∧ (calculateSummary (analyzeTools sampleCodec NewTokenCounter (newAudit sampleConfig)
        threeTools)).TotalTokens = 40
    ∧ (calculateSummary (analyzeTools sampleCodec NewTokenCounter (newAudit sampleConfig)
        threeTools)).Summary.AvgTokensPerTool = 13 := by
  decide

set_option maxRecDepth 100000 in
theorem threeTools_nonneg :
    ∀ t ∈ threeTools, 0 ≤ (analyzeTool sampleCodec t NewTokenCounter).TotalTokens := by
  decide

set_option maxRecDepth 100000 in
theorem threeTools_fit :
    (threeTools.map fun t => (analyzeTool sampleCodec t NewTokenCounter).TotalTokens).sum
      < 2 ^ 63 := by
  decide

/-- Claim C5.  When the tools' totals are non-negative and their sum fits a
Go `int`, the audit built by the analysis loop and `calculateSummary` holds
the analysed tools in order, its `TotalTokens` is the sum of their
`TotalTokens`, and its average is that total divided by the number of tools,
truncated toward zero, or 0 when there are no tools; totals 10, 0 and 30 give
an average of 13. -/
theorem audit_total_and_average (codec : Codec) (counter : TokenCounter) (config : ServerConfig)
    (tools : List MCPTool)
    (hnonneg : ∀ t ∈ tools, 0 ≤ (analyzeTool codec t counter).TotalTokens)
    (hfit : (tools.map fun t => (analyzeTool codec t counter).TotalTokens).sum < 2 ^ 63) :
    (calculateSummary (analyzeTools codec counter (newAudit config) tools)).Tools
        = tools.map (fun t => analyzeTool codec t counter)
    ∧ (calculateSummary (analyzeTools codec counter (newAudit config) tools)).TotalTokens
        = ((calculateSummary (analyzeTools codec counter (newAudit config) tools)).Tools.map
            fun t => t.TotalTokens).sum
    ∧ (calculateSummary (analyzeTools codec counter (newAudit config) tools)).Summary.AvgTokensPerTool
        = (if tools.length = 0 then 0
           else Int.tdiv
            (calculateSummary (analyzeTools codec counter (newAudit config) tools)).TotalTokens
            tools.length)
    ∧ (calculateSummary (analyzeTools sampleCodec NewTokenCounter (newAudit sampleConfig)
        threeTools)).Tools.map (fun t => t.TotalTokens) = [10, 0, 30]
    ∧ (calculateSummary (analyzeTools sampleCodec NewTokenCounter (newAudit sampleConfig)
        threeTools)).Summary.AvgTokensPerTool = 13 := by
  have hf := analyzeTools_fold codec counter tools (newAudit config) hnonneg
    (by simp [newAudit]) (by simpa [newAudit] using hfit)
  obtain ⟨hT, hS⟩ := hf
  have hc := calculateSummary_fields (analyzeTools codec counter (newAudit config) tools)
  obtain ⟨c1, c2, c3⟩ := hc
  have hT' : (analyzeTools codec counter (newAudit config) tools).Tools
      = tools.map (fun t => analyzeTool codec t counter) := by
    rw [hT]; simp [newAudit]
  refine ⟨by rw [c1, hT'], ?_, ?_, threeTools_summary.1, threeTools_summary.2.2⟩
  · rw [c1, c2, hS, hT']
    simp [newAudit, List.map_map, Function.comp_def]
  · rw [c3, c2, hT']
    by_cases he : tools = []
    · simp [he]
    · have hl : tools.length ≠ 0 := fun h => he (List.length_eq_zero.mp h)
      simp [he, hl]

/-- Claim C5 at three tools whose totals are 10, 0 and 30: the total is 40
and the average 13. -/
theorem audit_total_and_average_witness :
    (calculateSummary (analyzeTools sampleCodec NewTokenCounter (newAudit sampleConfig)
        threeTools)).TotalTokens
      = ((calculateSummary (analyzeTools sampleCodec NewTokenCounter (newAudit sampleConfig)
          threeTools)).Tools.map fun t => t.TotalTokens).sum
    ∧ (calculateSummary (analyzeTools sampleCodec NewTokenCounter (newAudit sampleConfig)
        threeTools)).TotalTokens = 40 :=
  ⟨(audit_total_and_average sampleCodec NewTokenCounter sampleConfig threeTools
      threeTools_nonneg threeTools_fit).2.1, threeTools_summary.2.1⟩

/-- The loop of `calculateSummary` started with `minTokens = m0`: the result
is at most `m0`, is `m0` or the total of a tool with a positive total, and is
at most every positive total. -/
theorem foldl_summaryStep_min (tools : List MCPToolAudit) : ∀ acc : SummaryLocals,
    (tools.foldl summaryStep acc).minTokens ≤ acc.minTokens
    ∧ ((tools.foldl summaryStep acc).minTokens = acc.minTokens
        ∨ ∃ t ∈ tools, 0 < t.TotalTokens ∧ t.TotalTokens = (tools.foldl summaryStep acc).minTokens)
    ∧ ∀ t ∈ tools, 0 < t.TotalTokens → (tools.foldl summaryStep acc).minTokens ≤ t.TotalTokens := by
  induction tools with
  | nil => intro acc; simp
  | cons t ts ih =>
    intro acc
    rw [List.foldl_cons]
    obtain ⟨h1, h2, h3⟩ := ih (summaryStep acc t)
    have hstep : (summaryStep acc t).minTokens
        = if t.TotalTokens < acc.minTokens ∧ t.TotalTokens > 0 then t.TotalTokens
          else acc.minTokens := rfl
    refine ⟨?_, ?_, ?_⟩
    · rw [hstep] at h1
      split_ifs at h1 with hc <;> omega
    · rcases h2 with h2 | ⟨u, hu, hpos, heq⟩
      · rw [hstep] at h2
        split_ifs at h2 with hc
        · right
          exact ⟨t, List.mem_cons_self _ _, hc.2, h2.symm⟩
        · left; exact h2
      · right
        exact ⟨u, List.mem_cons_of_mem _ hu, hpos, heq⟩
    · intro u hu hpos
      rcases List.mem_cons.mp hu with rfl | hu
      · rw [hstep] at h1
        split_ifs at h1 with hc
        · exact h1
        · have : ¬ (u.TotalTokens < acc.minTokens) := fun h => hc ⟨h, hpos⟩
          omega
      · exact h3 u hu hpos

/-- Where `calculateSummary` does compute the minimum: if some tool has a
total that is positive and below 999999, and no total is negative, then
`MinTokensPerTool` is the total of a tool with a nonzero total and is at most
every nonzero total. -/
theorem calculateSummary_min_of_small_total (audit : MCPServerAudit)
    (hnonneg : ∀ t ∈ audit.Tools, 0 ≤ t.TotalTokens)
    (hsmall : ∃ t ∈ audit.Tools, 0 < t.TotalTokens ∧ t.TotalTokens < 999999) :
    (∃ t ∈ audit.Tools, t.TotalTokens ≠ 0
        ∧ t.TotalTokens = (calculateSummary audit).Summary.MinTokensPerTool)
    ∧ ∀ t ∈ audit.Tools, t.TotalTokens ≠ 0 →
        (calculateSummary audit).Summary.MinTokensPerTool ≤ t.TotalTokens := by
  obtain ⟨t0, ht0, hpos0, hlt0⟩ := hsmall
  have hne : audit.Tools ≠ [] := List.ne_nil_of_mem ht0
  have hlen : ((audit.Tools.length : Nat) : Int) ≠ 0 := by
    have := List.length_pos.mpr hne
    omega
  have hmin : (calculateSummary audit).Summary.MinTokensPerTool
      = (audit.Tools.foldl summaryStep
          { maxTokens := 0, minTokens := 999999, longDescCount := 0 }).minTokens := by
    unfold calculateSummary
    simp only [hlen, if_false]
    split_ifs <;> rfl
  obtain ⟨h1, h2, h3⟩ := foldl_summaryStep_min audit.Tools
    { maxTokens := 0, minTokens := 999999, longDescCount := 0 }
  rw [hmin]
  have hle := h3 t0 ht0 hpos0
  refine ⟨?_, ?_⟩
  · rcases h2 with h2 | ⟨u, hu, hpos, heq⟩
    · simp only at h2; omega
    · exact ⟨u, hu, by omega, heq⟩
  · intro t ht hnz
    have := hnonneg t ht
    exact h3 t ht (by omega)

set_option maxRecDepth 100000 in
/-- Claim C4, the code at the failing input.  For a service whose only tool
has no description and the schema `{}`, the tool's total is 0 and
`calculateSummary` reports `MinTokensPerTool = 999999`, the value the scan
starts from; a single total of 1000000 is reported as 999999 too.  The empty
list gives 0 and the totals 10, 0, 30 give 10. -/
theorem calculateSummary_min_reports_initial_value :
    pingAudit.Tools.map (fun t => t.TotalTokens) = [0]
    ∧ pingAudit.Summary.MinTokensPerTool = 999999
    ∧ (calculateSummary (auditOf [toolAuditOf (lit "big") 1000000 0])).Summary.MinTokensPerTool
        = 999999
    ∧ (calculateSummary (auditOf [])).Summary.MinTokensPerTool = 0
    ∧ (calculateSummary (auditOf [toolAuditOf (lit "a") 10 0, toolAuditOf (lit "b") 0 0,
        toolAuditOf (lit "c") 30 0])).Summary.MinTokensPerTool = 10 := by
  decide

theorem splitNewlineAux_ne_nil (s : GoString) : ∀ cur : GoString, splitNewlineAux s cur ≠ [] := by
  induction s with
  | nil => intro cur; simp [splitNewlineAux]
  | cons c rest ih =>
    intro cur
    unfold splitNewlineAux
    split_ifs
    · simp
    · exact ih _

theorem intercalate_cons_of_ne_nil (sep x : GoString) (xs : List GoString) (h : xs ≠ []) :
    List.intercalate sep (x :: xs) = x ++ sep ++ List.intercalate sep xs := by
  cases xs with
  | nil => exact absurd rfl h
  | cons y ys => simp [List.intercalate, List.intersperse]

theorem splitNewlineAux_join (s : GoString) : ∀ cur : GoString,
    List.intercalate [10] (splitNewlineAux s cur) = cur ++ s := by
  induction s with
  | nil => intro cur; simp [splitNewlineAux, List.intercalate]
  | cons c rest ih =>
    intro cur
    unfold splitNewlineAux
    split_ifs with hc
    · subst hc
      rw [intercalate_cons_of_ne_nil _ _ _ (splitNewlineAux_ne_nil rest []), ih []]
      simp
    · rw [ih]; simp

theorem splitNewlineAux_no_newline (s : GoString) : ∀ cur : GoString, (10 : UInt8) ∉ cur →
    ∀ l ∈ splitNewlineAux s cur, (10 : UInt8) ∉ l := by
  induction s with
  | nil =>
    intro cur hcur l hl
    simp [splitNewlineAux] at hl
    subst hl; exact hcur
  | cons c rest ih =>
    intro cur hcur l hl
    unfold splitNewlineAux at hl
    split_ifs at hl with hc
    · rcases List.mem_cons.mp hl with rfl | hl
      · exact hcur
      · exact ih [] (by simp) l hl
    · refine ih (cur ++ [c]) ?_ l hl
      simp only [List.mem_append, List.mem_singleton, not_or]
      exact ⟨hcur, fun h => hc h.symm⟩

theorem decodeLine_eq_none_iff (codec : Codec) (line : GoString) :
    decodeLine codec line = none ↔ ∃ e, codec.unmarshalResponse (TrimSpace line) = .error e := by
  unfold decodeLine
  cases codec.unmarshalResponse (TrimSpace line) <;> simp

theorem decodeLine_eq_some_iff (codec : Codec) (line : GoString) (response : MCPResponse) :
    decodeLine codec line = some response
      ↔ codec.unmarshalResponse (TrimSpace line) = .ok response := by
  unfold decodeLine
  cases codec.unmarshalResponse (TrimSpace line) <;> simp

theorem parseLines_some_iff (codec : Codec) (lines : List GoString) (response : MCPResponse) :
    parseLines codec lines = some response
      ↔ ∃ pre line post, lines = pre ++ line :: post
          ∧ (∀ x ∈ pre, skippedLine codec x) ∧ parsedLine codec line response := by
  induction lines with
  | nil => simp [parseLines]
  | cons l ls ih =>
    unfold parseLines
    simp only
    constructor
    · intro h
      split_ifs at h with hblank
      · obtain ⟨pre, line, post, hl, hpre, hline⟩ := ih.mp h
        refine ⟨l :: pre, line, post, by simp [hl], ?_, hline⟩
        intro x hx
        rcases List.mem_cons.mp hx with rfl | hx
        · exact Or.inl hblank
        · exact hpre x hx
      · cases hu : codec.unmarshalResponse (TrimSpace l) with
        | error e =>
          rw [hu] at h
          obtain ⟨pre, line, post, hl, hpre, hline⟩ := ih.mp h
          refine ⟨l :: pre, line, post, by simp [hl], ?_, hline⟩
          intro x hx
          rcases List.mem_cons.mp hx with rfl | hx
          · exact Or.inr ((decodeLine_eq_none_iff _ _).mpr ⟨e, hu⟩)
          · exact hpre x hx
        | ok r =>
          rw [hu] at h
          simp only [Option.some.injEq] at h
          subst h
          exact ⟨[], l, ls, rfl, by simp, hblank, (decodeLine_eq_some_iff _ _ _).mpr hu⟩
    · rintro ⟨pre, line, post, hl, hpre, hline⟩
      cases pre with
      | nil =>
        simp only [List.nil_append, List.cons.injEq] at hl
        obtain ⟨rfl, rfl⟩ := hl
        rw [if_neg hline.1, (decodeLine_eq_some_iff _ _ _).mp hline.2]
      | cons p ps =>
        simp only [List.cons_append, List.cons.injEq] at hl
        obtain ⟨rfl, rfl⟩ := hl
        have hrest : parseLines codec (ps ++ line :: post) = some response :=
          ih.mpr ⟨ps, line, post, rfl, fun x hx => hpre x (List.mem_cons_of_mem _ hx), hline⟩
        rcases hpre l (List.mem_cons_self _ _) with hb | hd
        · rw [if_pos hb]; exact hrest
        · obtain ⟨e, he⟩ := (decodeLine_eq_none_iff _ _).mp hd
          split_ifs
          · exact hrest
          · rw [he]; exact hrest

theorem parseLines_none_iff (codec : Codec) (lines : List GoString) :
    parseLines codec lines = none ↔ ∀ x ∈ lines, skippedLine codec x := by
  induction lines with
  | nil => simp [parseLines]
  | cons l ls ih =>
    unfold parseLines
    simp only
    constructor
    · intro h x hx
      split_ifs at h with hblank
      · rcases List.mem_cons.mp hx with rfl | hx
        · exact Or.inl hblank
        · exact ih.mp h x hx
      · cases hu : codec.unmarshalResponse (TrimSpace l) with
        | error e =>
          rw [hu] at h
          rcases List.mem_cons.mp hx with rfl | hx
          · exact Or.inr ((decodeLine_eq_none_iff _ _).mpr ⟨e, hu⟩)
          · exact ih.mp h x hx
        | ok r => rw [hu] at h; simp at h
    · intro h
      have hrest := ih.mpr (fun x hx => h x (List.mem_cons_of_mem _ hx))
      rcases h l (List.mem_cons_self _ _) with hb | hd
      · rw [if_pos hb]; exact hrest
      · obtain ⟨e, he⟩ := (decodeLine_eq_none_iff _ _).mp hd
        split_ifs
        · exact hrest
        · rw [he]; exact hrest

theorem readMCPResponse_of_finished (codec : Codec) (reader : Reader) (pos : Nat)
    (data : GoString) (hloop : (readLoop reader pos maxAttempts 0 0 0).exit = .finished data)
    (hne : data ≠ []) :
    (readMCPResponse codec reader pos).result = some (parseResponse codec data) := by
  have hl : data.length ≠ 0 := fun h => hne (List.length_eq_zero.mp h)
  unfold readMCPResponse
  simp only [hloop, hl, if_false]

/-- Claim C7.  When the read loop of `readMCPResponse` ends with a non-empty
chunk, the chunk is split at its newlines (the pieces contain no newline and
joined by newlines give the chunk back), and the call returns the response
decoded from the first piece, in order, that is non-empty after trimming and
decodes, every piece before it being blank or malformed; it returns an error
exactly when every piece is blank or malformed. -/
theorem readMCPResponse_first_parsable_line (codec : Codec) (reader : Reader) (pos : Nat)
    (data : GoString) (hloop : (readLoop reader pos maxAttempts 0 0 0).exit = .finished data)
    (hne : data ≠ []) :
    List.intercalate [10] (splitNewline data) = data
    ∧ (∀ piece ∈ splitNewline data, (10 : UInt8) ∉ piece)
    ∧ (∀ response, (readMCPResponse codec reader pos).result = some (.ok response)
        ↔ ∃ pre line post, splitNewline data = pre ++ line :: post
            ∧ (∀ x ∈ pre, skippedLine codec x) ∧ parsedLine codec line response)
    ∧ ((∃ e, (readMCPResponse codec reader pos).result = some (.error e))
        ↔ ∀ x ∈ splitNewline data, skippedLine codec x) := by
  have hres := readMCPResponse_of_finished codec reader pos data hloop hne
  refine ⟨by simpa [splitNewline] using splitNewlineAux_join data [],
    splitNewlineAux_no_newline data [] (by simp), ?_, ?_⟩
  · intro response
    rw [hres, ← parseLines_some_iff]
    unfold parseResponse
    cases hp : parseLines codec (splitNewline data) <;> simp [hp]
  · rw [hres, ← parseLines_none_iff]
    unfold parseResponse
    cases hp : parseLines codec (splitNewline data) <;> simp [hp]

set_option maxRecDepth 100000 in
theorem noisyReader_loop :
    (readLoop noisyReader 0 maxAttempts 0 0 0).exit = .finished noisyChunk := by decide

set_option maxRecDepth 100000 in
theorem noisyReader_result :
    (readMCPResponse sampleCodec noisyReader 0).result
      = some (.ok { Jsonrpc := lit "2.0", ID := 1, Result := lit "\x7b\x7d", Error := none }) := by
  decide

/-- Claim C7 at a chunk holding a log line, a blank line, a malformed line,
the response and one more parsable line: the response is returned, and no
error. -/
theorem readMCPResponse_first_parsable_line_witness :
    (readMCPResponse sampleCodec noisyReader 0).result
      = some (.ok { Jsonrpc := lit "2.0", ID := 1, Result := lit "\x7b\x7d", Error := none })
    ∧ ¬ (∀ x ∈ splitNewline noisyChunk, skippedLine sampleCodec x) := by
  refine ⟨noisyReader_result, ?_⟩
  intro h
  have h4 := (readMCPResponse_first_parsable_line sampleCodec noisyReader 0 noisyChunk
    noisyReader_loop (by decide)).2.2.2
  obtain ⟨e, he⟩ := h4.mpr h
  rw [noisyReader_result] at he
  simp at he

theorem isEmptyRead_iff (o : ReadOutcome) : isEmptyRead o = true ↔ ∃ e, o = .returns [] e := by
  cases o with
  | blocks => simp [isEmptyRead]
  | returns d e =>
    cases d with
    | nil => simp [isEmptyRead]
    | cons c cs => simp [isEmptyRead]

theorem noData_message :
    lit "no data received after " ++ fmtInt maxAttempts ++ lit " attempts"
      = lit "no data received after 3 attempts" := by decide

theorem readLoop_reads_bounds (reader : Reader) (pos : Nat) :
    ∀ (remaining attempts reads slept : Nat),
      reads ≤ (readLoop reader pos remaining attempts reads slept).reads
      ∧ (readLoop reader pos remaining attempts reads slept).reads ≤ reads + remaining
      ∧ (0 < remaining → reads < (readLoop reader pos remaining attempts reads slept).reads) := by
  intro remaining
  induction remaining with
  | zero => intro a r s; simp [readLoop]
  | succ n ih =>
    intro a r s
    unfold readLoop
    have h1 := ih (a + 1) (r + 1) (s + 500)
    have h2 := ih (a + 1) (r + 1) (s + 200)
    cases reader (pos + r) with
    | blocks => simp
    | returns d e =>
      cases e with
      | some e =>
        simp only
        split_ifs <;> first | omega | simp
      | none =>
        simp only
        split_ifs <;> first | omega | simp

/-- Claim C8, as the code has it.  `readMCPResponse` makes at least one and
at most 3 read attempts.  It parses the bytes of the first attempt that
returns any, provided the attempts before it returned nothing and the first
attempt did not return an error.  A first attempt that returns an error and
no bytes ends the call at once with that read error, after one attempt.
Otherwise attempts that return no bytes are retried, and "no data received"
is reported after the third. -/
theorem readMCPResponse_attempts (codec : Codec) (reader : Reader) (pos : Nat) :
    (1 ≤ (readMCPResponse codec reader pos).reads
      ∧ (readMCPResponse codec reader pos).reads ≤ maxAttempts)
    ∧ (∀ k data err, k < maxAttempts →
        (∀ j < k, isEmptyRead (reader (pos + j)) = true) →
        (∀ e, reader pos ≠ .returns [] (some e)) →
        reader (pos + k) = .returns data err → data ≠ [] →
        (readMCPResponse codec reader pos).result = some (parseResponse codec data)
        ∧ (readMCPResponse codec reader pos).reads = k + 1)
    ∧ (∀ e, reader pos = .returns [] (some e) →
        (readMCPResponse codec reader pos).result
          = some (.error (lit "failed to read response: " ++ e))
        ∧ (readMCPResponse codec reader pos).reads = 1)
    ∧ (reader pos = .returns [] none → isEmptyRead (reader (pos + 1)) = true →
        isEmptyRead (reader (pos + 2)) = true →
        (readMCPResponse codec reader pos).result
          = some (.error (lit "no data received after 3 attempts"))
        ∧ (readMCPResponse codec reader pos).reads = maxAttempts) := by
  refine ⟨?_, ?_, ?_, ?_⟩
  · have hb := readLoop_reads_bounds reader pos maxAttempts 0 0 0
    have hr : (readMCPResponse codec reader pos).reads
        = (readLoop reader pos maxAttempts 0 0 0).reads := by
      unfold readMCPResponse
      simp only
      split
      · rfl
      · rfl
      · split_ifs <;> rfl
    rw [hr]
    have h3 := hb.2.2 (by decide)
    constructor <;> omega
  · intro k data err hk hprev hfirst hread hne
    have hl : data.length ≠ 0 := fun h => hne (List.length_eq_zero.mp h)
    have hlpos : 0 < data.length := Nat.pos_of_ne_zero hl
    have hk3 : k < 3 := hk
    have hexit : (readLoop reader pos maxAttempts 0 0 0).exit = .finished data
        ∧ (readLoop reader pos maxAttempts 0 0 0).reads = k + 1 := by
      interval_cases k
      · simp only [Nat.add_zero] at hread
        cases err <;> simp [maxAttempts, readLoop, hread, hl, hlpos]
      · obtain ⟨e0, h0⟩ := (isEmptyRead_iff _).mp (hprev 0 (by omega))
        simp only [Nat.add_zero] at h0
        cases e0 with
        | some e => exact absurd h0 (hfirst e)
        | none =>
          cases err <;> simp [maxAttempts, readLoop, h0, hread, hl, hlpos]
      · obtain ⟨e0, h0⟩ := (isEmptyRead_iff _).mp (hprev 0 (by omega))
        obtain ⟨e1, h1⟩ := (isEmptyRead_iff _).mp (hprev 1 (by omega))
        simp only [Nat.add_zero] at h0
        cases e0 with
        | some e => exact absurd h0 (hfirst e)
        | none =>
          cases e1 <;> cases err <;> simp [maxAttempts, readLoop, h0, h1, hread, hl, hlpos]
    refine ⟨readMCPResponse_of_finished codec reader pos data hexit.1 hne, ?_⟩
    unfold readMCPResponse
    simp only [hexit.1, hl, if_false, hexit.2]
  · intro e h0
    simp [readMCPResponse, maxAttempts, readLoop, h0]
  · intro h0 h1 h2
    obtain ⟨e1, h1⟩ := (isEmptyRead_iff _).mp h1
    obtain ⟨e2, h2⟩ := (isEmptyRead_iff _).mp h2
    rw [← noData_message]
    cases e1 <;> cases e2 <;> simp [readMCPResponse, maxAttempts, readLoop, h0, h1, h2]

set_option maxRecDepth 100000 in
theorem slowReader_result :
    (readMCPResponse sampleCodec slowReader 0).result
      = some (.ok { Jsonrpc := lit "2.0", ID := 1, Result := lit "\x7b\x7d", Error := none })
    ∧ (readMCPResponse sampleCodec slowReader 0).reads = 3 := by
  decide

/-- Claim C8 as amended, at a reader that returns nothing twice and then the
response: the third attempt is parsed, after 3 reads. -/
theorem readMCPResponse_attempts_witness :
    (readMCPResponse sampleCodec slowReader 0).result
      = some (parseResponse sampleCodec
          (lit "\x7b\"jsonrpc\":\"2.0\",\"id\":1,\"result\":\x7b\x7d\x7d\n"))
    ∧ (readMCPResponse sampleCodec slowReader 0).reads = 2 + 1 :=
  (readMCPResponse_attempts sampleCodec slowReader 0).2.1 2 _ none (by decide) (by decide)
    (by intro e; simp [slowReader]) (by decide) (by decide)

set_option maxRecDepth 100000 in
/-- Claim C8 fails at a reader at end of file: the first attempt returns an
error and no bytes, and `readMCPResponse` fails for lack of data after that
single attempt, not after 3; so it is not true that every failure without
data comes after `maxAttempts` reads. -/
theorem readMCPResponse_fails_before_attempts_exhausted :
    (readMCPResponse sampleCodec eofReader 0).result
      = some (.error (lit "failed to read response: EOF"))
    ∧ (readMCPResponse sampleCodec eofReader 0).reads = 1
    ∧ (∀ k < (readMCPResponse sampleCodec eofReader 0).reads, isEmptyRead (eofReader k) = true)
    ∧ ¬ (∀ (reader : Reader) (e : GoString),
          (readMCPResponse sampleCodec reader 0).result = some (.error e) →
          (∀ k < (readMCPResponse sampleCodec reader 0).reads, isEmptyRead (reader k) = true) →
          (readMCPResponse sampleCodec reader 0).reads = maxAttempts) := by
  have h1 : (readMCPResponse sampleCodec eofReader 0).result
      = some (.error (lit "failed to read response: EOF")) := by decide
  have h2 : (readMCPResponse sampleCodec eofReader 0).reads = 1 := by decide
  have h3 : ∀ k < (readMCPResponse sampleCodec eofReader 0).reads,
      isEmptyRead (eofReader k) = true := by
    intro k _
    rfl
  refine ⟨h1, h2, h3, ?_⟩
  intro h
  have := h eofReader _ h1 h3
  rw [h2] at this
  exact absurd this (by decide)

theorem sendMCPRequest_ok_of_none (codec : Codec) (w : World) (k : Nat) (req : MCPRequest)
    (h : (sendMCPRequest codec w k req).2 = none) :
    ∃ evs, sendMCPRequest codec w k req = (evs, none) := by
  refine ⟨(sendMCPRequest codec w k req).1, ?_⟩
  rw [← h]

/-- Claim C9, as the code has it.  In a session whose process started, whose
two requests were sent, whose `initialize` response was read and in which a
`tools/list` response was read: an error payload makes `getMCPTools` fail
with "tools/list error: " followed by the payload's message, returning no
tools; without an error payload the result payload is decoded, and
`getMCPTools` succeeds with the decoded tools, in the decoder's order, when
it decodes, and fails with the decoder's error when it does not. -/
theorem getMCPTools_tools_list_response (codec : Codec) (config : ServerConfig) (w : World)
    (first response : MCPResponse)
    (hstart : started w)
    (hsend1 : (sendMCPRequest codec w 0 initReq).2 = none)
    (hread1 : (readMCPResponse codec w.stdout 0).result = some (.ok first))
    (hsend2 : (sendMCPRequest codec w 1 toolsReq).2 = none)
    (hread2 : (readMCPResponse codec w.stdout (readMCPResponse codec w.stdout 0).reads).result
      = some (.ok response)) :
    (∀ e, response.Error = some e →
        (getMCPTools codec config w).result
          = some (.error (lit "tools/list error: " ++ e.Message)))
    ∧ (response.Error = none → ∀ tools, codec.unmarshalTools response.Result = .ok tools →
        (getMCPTools codec config w).result = some (.ok tools))
    ∧ (response.Error = none → ∀ err, codec.unmarshalTools response.Result = .error err →
        (getMCPTools codec config w).result
          = some (.error (lit "failed to parse tools list: " ++ err))) := by
  obtain ⟨h1, h2, h3, h4⟩ := hstart
  have hbody : ∀ r, (getMCPToolsBody codec config w).result = some r →
      (getMCPTools codec config w).result = some r := by
    intro r hr
    unfold getMCPTools
    simp only [h1, h2, h3, h4, hr]
  refine ⟨?_, ?_, ?_⟩
  · intro e he
    apply hbody
    unfold getMCPToolsBody
    simp [hsend1, hread1, hsend2, hread2, he]
  · intro he tools ht
    apply hbody
    unfold getMCPToolsBody
    simp [hsend1, hread1, hsend2, hread2, he, ht]
  · intro he err ht
    apply hbody
    unfold getMCPToolsBody
    simp [hsend1, hread1, hsend2, hread2, he, ht]

set_option maxRecDepth 100000 in
theorem pingAnswerWorld_reads :
    (readMCPResponse sampleCodec pingAnswerWorld.stdout 0).result = some (.ok initResponse)
    ∧ (readMCPResponse sampleCodec pingAnswerWorld.stdout
        (readMCPResponse sampleCodec pingAnswerWorld.stdout 0).reads).result
      = some (.ok pingResponse) := by
  decide

/-- Claim C9 as amended, at a child that answers `tools/list` with the one
tool `ping`: `getMCPTools` returns that tool. -/
theorem getMCPTools_tools_list_response_witness :
    (getMCPTools sampleCodec sampleConfig pingAnswerWorld).result = some (.ok [pingTool]) :=
  (getMCPTools_tools_list_response sampleCodec sampleConfig pingAnswerWorld _ _
    (by decide) (by decide) pingAnswerWorld_reads.1 (by decide) pingAnswerWorld_reads.2).2.1
    rfl [pingTool] rfl

set_option maxRecDepth 100000 in
theorem emptyAnswerWorld_reads :
    (readMCPResponse sampleCodec emptyAnswerWorld.stdout 0).result = some (.ok initResponse)
    ∧ (readMCPResponse sampleCodec emptyAnswerWorld.stdout
        (readMCPResponse sampleCodec emptyAnswerWorld.stdout 0).reads).result
      = some (.ok emptyResponse) := by
  decide

set_option maxRecDepth 100000 in
theorem emptyAnswerWorld_result :
    toolNames (getMCPTools sampleCodec sampleConfig emptyAnswerWorld).result
      = some (.error (lit "failed to parse tools list: unexpected end of JSON input")) := by
  decide

/-- Claim C9 fails at a child that answers `tools/list` with a response that
carries neither an error nor a result: the process started, the `initialize`
response is read, the `tools/list` response is read and has no error payload,
and `getMCPTools` does not succeed; it fails on decoding the empty result
payload. -/
theorem getMCPTools_fails_without_error_payload :
    started emptyAnswerWorld
    ∧ (readMCPResponse sampleCodec emptyAnswerWorld.stdout 0).result = some (.ok initResponse)
    ∧ (readMCPResponse sampleCodec emptyAnswerWorld.stdout
        (readMCPResponse sampleCodec emptyAnswerWorld.stdout 0).reads).result
        = some (.ok emptyResponse)
    ∧ emptyResponse.Error = none
    ∧ (getMCPTools sampleCodec sampleConfig emptyAnswerWorld).result
        = some (.error (lit "failed to parse tools list: unexpected end of JSON input")) := by
  refine ⟨by decide, emptyAnswerWorld_reads.1, emptyAnswerWorld_reads.2, rfl, ?_⟩
  have h := emptyAnswerWorld_result
  cases hr : (getMCPTools sampleCodec sampleConfig emptyAnswerWorld).result with
  | none => rw [hr] at h; simp [toolNames] at h
  | some r =>
    cases r with
    | error e =>
      rw [hr] at h
      simp only [toolNames, Option.some.injEq, Except.error.injEq] at h
      rw [h]
    | ok tools => rw [hr] at h; simp [toolNames] at h

theorem sendMCPRequest_events (codec : Codec) (w : World) (k : Nat) (req : MCPRequest) :
    ∀ e ∈ (sendMCPRequest codec w k req).1, isCleanup e = false := by
  intro e he
  unfold sendMCPRequest at he
  split at he
  · simp at he
  · simp only [List.mem_singleton] at he
    subst he
    rfl

theorem all_append_of (xs ys : List Event) (hx : ∀ e ∈ xs, isCleanup e = false)
    (hy : ∀ e ∈ ys, isCleanup e = false) : ∀ e ∈ xs ++ ys, isCleanup e = false := by
  intro e he
  rcases List.mem_append.mp he with h | h
  · exact hx e h
  · exact hy e h

theorem getMCPToolsBody_events (codec : Codec) (config : ServerConfig) (w : World) :
    ∀ e ∈ (getMCPToolsBody codec config w).events, isCleanup e = false := by
  have hs1 := sendMCPRequest_events codec w 0 initReq
  have hs2 := sendMCPRequest_events codec w 1 toolsReq
  have hsleep : ∀ ms, ∀ e ∈ [Event.sleep ms], isCleanup e = false := by
    intro ms e he
    simp only [List.mem_singleton] at he
    subst he; rfl
  have hread : ∀ n, ∀ e ∈ [Event.readStdout n], isCleanup e = false := by
    intro n e he
    simp only [List.mem_singleton] at he
    subst he; rfl
  have herr : ∀ e ∈ [Event.readStderr], isCleanup e = false := by
    intro e he
    simp only [List.mem_singleton] at he
    subst he; rfl
  have a1 := fun ms => all_append_of _ _ (hsleep ms) hs1
  have a2 := fun ms => all_append_of _ _ (a1 ms) (hread (readMCPResponse codec w.stdout 0).reads)
  have a3 := fun ms => all_append_of _ _ (a2 ms) herr
  have a4 := fun ms => all_append_of _ _ (a2 ms) hs2
  have a5 := fun ms => all_append_of _ _ (a4 ms)
    (hread (readMCPResponse codec w.stdout (readMCPResponse codec w.stdout 0).reads).reads)
  unfold getMCPToolsBody
  simp only [reduceCtorEq, if_false]
  repeat' split
  all_goals first | exact a1 _ | exact a2 _ | exact a3 _ | exact a4 _ | exact a5 _

theorem count_eq_zero_of_not_cleanup (body : List Event) (c : Event) (hc : isCleanup c = true)
    (h : ∀ e ∈ body, isCleanup e = false) : body.count c = 0 := by
  apply List.count_eq_zero.mpr
  intro hmem
  have := h c hmem
  rw [hc] at this
  exact absurd this (by decide)

/-- Claim C10, as the code has it.  For a process that was started: whenever
`getMCPTools` returns, with tools or with an error, what it did is the start,
then the session's sends, sleeps and reads, then closing the request stream,
killing the process and reaping it, each exactly once; when it never returns
(a read on a silent pipe) none of the three has happened.  `auditMCPServer`
does nothing to the process itself, on no branch of its `select`: what
happens to the process is what `getMCPTools` does. -/
theorem getMCPTools_cleanup_when_it_returns (codec : Codec) (config : ServerConfig)
    (counter : TokenCounter) (w : World) (hstart : started w) :
    (∀ r, (getMCPTools codec config w).result = some r →
        (getMCPTools codec config w).events
          = Event.start :: (getMCPToolsBody codec config w).events
              ++ [Event.closeStdin, Event.kill, Event.wait]
        ∧ (getMCPTools codec config w).events.count Event.closeStdin = 1
        ∧ (getMCPTools codec config w).events.count Event.kill = 1
        ∧ (getMCPTools codec config w).events.count Event.wait = 1)
    ∧ ((getMCPTools codec config w).result = none →
        ∀ e ∈ (getMCPTools codec config w).events, isCleanup e = false)
    ∧ (w.workDirExists = true →
        (auditMCPServer codec config counter w).session = (getMCPTools codec config w).events) := by
  obtain ⟨h1, h2, h3, h4⟩ := hstart
  have hbody := getMCPToolsBody_events codec config w
  have hc1 := count_eq_zero_of_not_cleanup _ Event.closeStdin rfl hbody
  have hc2 := count_eq_zero_of_not_cleanup _ Event.kill rfl hbody
  have hc3 := count_eq_zero_of_not_cleanup _ Event.wait rfl hbody
  refine ⟨?_, ?_, ?_⟩
  · intro r hr
    cases hb : (getMCPToolsBody codec config w).result with
    | none =>
      have : (getMCPTools codec config w).result = none := by
        unfold getMCPTools
        simp only [h1, h2, h3, h4, hb]
      rw [this] at hr
      exact absurd hr (by simp)
    | some rb =>
      have hev : (getMCPTools codec config w).events
          = Event.start :: (getMCPToolsBody codec config w).events
              ++ [Event.closeStdin, Event.kill, Event.wait] := by
        unfold getMCPTools
        simp only [h1, h2, h3, h4, hb, cleanup]
      refine ⟨hev, ?_, ?_, ?_⟩
      · rw [hev, List.cons_append, List.count_cons, List.count_append, hc1]
        decide
      · rw [hev, List.cons_append, List.count_cons, List.count_append, hc2]
        decide
      · rw [hev, List.cons_append, List.count_cons, List.count_append, hc3]
        decide
  · intro hnone e he
    cases hb : (getMCPToolsBody codec config w).result with
    | none =>
      have hev : (getMCPTools codec config w).events
          = Event.start :: (getMCPToolsBody codec config w).events := by
        unfold getMCPTools
        simp only [h1, h2, h3, h4, hb]
      rw [hev] at he
      rcases List.mem_cons.mp he with rfl | he
      · rfl
      · exact hbody e he
    | some rb =>
      have : (getMCPTools codec config w).result = some rb := by
        unfold getMCPTools
        simp only [h1, h2, h3, h4, hb]
      rw [this] at hnone
      exact absurd hnone (by simp)
  · intro hdir
    unfold auditMCPServer
    simp only [hdir, Bool.not_true, Bool.false_eq_true, if_false]
    split
    · rfl
    · split
      · rfl
      · split <;> rfl

set_option maxRecDepth 100000 in
theorem pingAnswerWorld_session :
    toolNames (getMCPTools sampleCodec sampleConfig pingAnswerWorld).result
      = some (.ok [lit "ping"])
    ∧ (getMCPTools sampleCodec sampleConfig pingAnswerWorld).events.count Event.kill = 1 := by
  decide

/-- Claim C10 as amended, at a child that answers both requests: the call
returns and the process is killed once. -/
theorem getMCPTools_cleanup_when_it_returns_witness :
    (getMCPTools sampleCodec sampleConfig pingAnswerWorld).events.count Event.closeStdin = 1
    ∧ (getMCPTools sampleCodec sampleConfig pingAnswerWorld).events.count Event.kill = 1
    ∧ (getMCPTools sampleCodec sampleConfig pingAnswerWorld).events.count Event.wait = 1 := by
  cases hr : (getMCPTools sampleCodec sampleConfig pingAnswerWorld).result with
  | none =>
    have h := pingAnswerWorld_session.1
    rw [hr] at h
    simp [toolNames] at h
  | some r =>
    exact ((getMCPTools_cleanup_when_it_returns sampleCodec sampleConfig NewTokenCounter
      pingAnswerWorld (by decide)).1 r hr).2

set_option maxRecDepth 100000 in
/-- Claim C10 fails at a child that starts and then stays silent: the read of
the `initialize` response never returns, so `getMCPTools` never reaches its
deferred function; the timer of `auditMCPServer` fires and it returns the
timeout error, and the session has started the process but has not closed the
request stream, killed the process or reaped it. -/
theorem auditMCPServer_timeout_without_cleanup :
    started silentWorld
    ∧ (auditMCPServer sampleCodec sampleConfig NewTokenCounter silentWorld).err
        = some (lit "timeout after 30s waiting for server response")
    ∧ Event.start ∈ (auditMCPServer sampleCodec sampleConfig NewTokenCounter silentWorld).session
    ∧ (auditMCPServer sampleCodec sampleConfig NewTokenCounter silentWorld).session.count
        Event.closeStdin = 0
    ∧ (auditMCPServer sampleCodec sampleConfig NewTokenCounter silentWorld).session.count
        Event.kill = 0
    ∧ (auditMCPServer sampleCodec sampleConfig NewTokenCounter silentWorld).session.count
        Event.wait = 0 := by
  decide

theorem readMCPResponse_reads (codec : Codec) (reader : Reader) (pos : Nat) :
    (readMCPResponse codec reader pos).reads = (readLoop reader pos maxAttempts 0 0 0).reads := by
  unfold readMCPResponse
  simp only
  split
  · rfl
  · rfl
  · split_ifs <;> rfl

theorem readLoop_succ (r : Reader) (pos n a rd s : Nat) :
    readLoop r pos (n + 1) a rd s
      = match r (pos + rd) with
        | .blocks => { exit := .blocked, reads := rd + 1, slept := s }
        | .returns data err =>
          match err with
          | some e =>
            if data.length = 0 then
              if a = 0 then
                { exit := .failed (lit "failed to read response: " ++ e),
                  reads := rd + 1, slept := s }
              else readLoop r pos n (a + 1) (rd + 1) (s + 500)
            else { exit := .finished data, reads := rd + 1, slept := s }
          | none =>
            if data.length > 0 then { exit := .finished data, reads := rd + 1, slept := s }
            else readLoop r pos n (a + 1) (rd + 1) (s + 200) := by
  rw [readLoop]

theorem readLoop_congr (r1 r2 : Reader) (pos : Nat) : ∀ (remaining attempts reads slept : Nat),
    (∀ j, reads ≤ j → j < (readLoop r1 pos remaining attempts reads slept).reads →
      r2 (pos + j) = r1 (pos + j)) →
    readLoop r2 pos remaining attempts reads slept
      = readLoop r1 pos remaining attempts reads slept := by
  intro remaining
  induction remaining with
  | zero => intro a r s _; rfl
  | succ n ih =>
    intro a r s hag
    have hlt := (readLoop_reads_bounds r1 pos (n + 1) a r s).2.2 (by omega)
    have h0 : r2 (pos + r) = r1 (pos + r) := hag r (le_refl _) hlt
    rw [readLoop_succ r1] at hag
    rw [readLoop_succ r2, readLoop_succ r1, h0]
    cases hr : r1 (pos + r) with
    | blocks => rfl
    | returns d e =>
      rw [hr] at hag
      cases e with
      | some e =>
        simp only at hag ⊢
        split_ifs with hd ha
        · rfl
        · rw [if_pos hd, if_neg ha] at hag
          exact ih _ _ _ (fun j hj hjlt => hag j (by omega) hjlt)
        · rfl
      | none =>
        simp only at hag ⊢
        split_ifs with hd
        · rfl
        · rw [if_neg hd] at hag
          exact ih _ _ _ (fun j hj hjlt => hag j (by omega) hjlt)

theorem readLoop_reads_le_of_nonempty (r : Reader) (pos k : Nat) (data : GoString)
    (err : Option GoString) (hk : r (pos + k) = .returns data err) (hne : data ≠ []) :
    ∀ (remaining attempts reads slept : Nat), reads ≤ k →
      (readLoop r pos remaining attempts reads slept).reads ≤ k + 1 := by
  have hl : data.length ≠ 0 := fun h => hne (List.length_eq_zero.mp h)
  intro remaining
  induction remaining with
  | zero => intro a rd s hle; simp only [readLoop]; omega
  | succ n ih =>
    intro a rd s hle
    rcases Nat.lt_or_ge rd k with hlt | hge
    · have h1 := ih (a + 1) (rd + 1) (s + 500) (by omega)
      have h2 := ih (a + 1) (rd + 1) (s + 200) (by omega)
      unfold readLoop
      cases r (pos + rd) with
      | blocks => simp only; omega
      | returns d e =>
        cases e with
        | some e =>
          simp only
          split_ifs
          · simp only; omega
          · exact h1
          · simp only; omega
        | none =>
          simp only
          split_ifs
          · simp only; omega
          · exact h2
    · have hrk : rd = k := by omega
      subst hrk
      unfold readLoop
      rw [hk]
      cases err with
      | some e => simp [hl]
      | none => simp [hl, Nat.pos_of_ne_zero hl]

theorem readLoop_earlier_reads_empty (r : Reader) (pos : Nat) :
    ∀ (remaining attempts reads slept j : Nat), reads ≤ j →
      j + 1 < (readLoop r pos remaining attempts reads slept).reads →
      isEmptyRead (r (pos + j)) = true := by
  intro remaining
  induction remaining with
  | zero =>
    intro a rd s j hle hlt
    simp only [readLoop] at hlt
    omega
  | succ n ih =>
    intro a rd s j hle hlt
    unfold readLoop at hlt
    cases hr : r (pos + rd) with
    | blocks =>
      rw [hr] at hlt
      simp only at hlt
      omega
    | returns d e =>
      rw [hr] at hlt
      cases e with
      | some e =>
        simp only at hlt
        split_ifs at hlt with hd ha
        · simp only at hlt; omega
        · rcases Nat.eq_or_lt_of_le hle with heq | hlt2
          · subst heq
            rw [hr, List.length_eq_zero.mp hd]
            rfl
          · exact ih _ _ _ j hlt2 hlt
        · simp only at hlt; omega
      | none =>
        simp only at hlt
        split_ifs at hlt with hd
        · simp only at hlt; omega
        · rcases Nat.eq_or_lt_of_le hle with heq | hlt2
          · subst heq
            have : d = [] := List.length_eq_zero.mp (by omega)
            rw [hr, this]
            rfl
          · exact ih _ _ _ j hlt2 hlt

theorem readMCPResponse_congr (codec : Codec) (r1 r2 : Reader) (pos : Nat)
    (h : readLoop r2 pos maxAttempts 0 0 0 = readLoop r1 pos maxAttempts 0 0 0) :
    readMCPResponse codec r2 pos = readMCPResponse codec r1 pos := by
  unfold readMCPResponse
  rw [h]

theorem readMCPResponse_first_read (codec : Codec) (reader : Reader) (pos : Nat)
    (data : GoString) (err : Option GoString) (h0 : reader pos = .returns data err)
    (hne : data ≠ []) :
    (readMCPResponse codec reader pos).result = some (parseResponse codec data)
    ∧ (readMCPResponse codec reader pos).reads = 1 := by
  have hl : data.length ≠ 0 := fun h => hne (List.length_eq_zero.mp h)
  have hexit : readLoop reader pos maxAttempts 0 0 0
      = { exit := .finished data, reads := 1, slept := 0 } := by
    show readLoop reader pos (2 + 1) 0 0 0 = _
    rw [readLoop_succ, Nat.add_zero, h0]
    cases err with
    | some e => simp [hl]
    | none => simp [hl, Nat.pos_of_ne_zero hl]
  unfold readMCPResponse
  rw [hexit]
  simp [hl]

set_option maxRecDepth 100000 in
theorem splitReader_results :
    (readMCPResponse sampleCodec splitReader 0).result
      = some (.error (lit "no valid JSON response found in data: \x7b\"jsonrpc\":\"2.0\","))
    ∧ (readMCPResponse sampleCodec splitReader 0).reads = 1
    ∧ (readMCPResponse sampleCodec wholeReader 0).result = some (.ok initResponse)
    ∧ (readMCPResponse sampleCodec splitReader 1).result
      = some (.error (lit
          "no valid JSON response found in data: \"id\":1,\"result\":\x7b\x7d\x7d\n")) := by
  decide

/-- Claim C11.  Let a read of the reader return at least one byte.  Then a
second reader that agrees with it up to and including that read (so, up to
its first non-empty read) gets the same result from `readMCPResponse`,
whatever its later reads deliver; the call makes no read after that one; in
every call each read but the last returned no bytes; and when the first read
returns bytes the result is the parse of that chunk alone, after one read,
whatever would follow: the first piece of a line that arrives in two reads,
or the first 64 KB of a longer line, is parsed on its own.  The `initialize`
line of the sample codec parses when it arrives whole and is lost when it
arrives in two reads. -/
theorem readMCPResponse_single_chunk (codec : Codec) (r1 r2 : Reader) (pos k : Nat)
    (data : GoString) (err : Option GoString)
    (hk : r1 (pos + k) = .returns data err) (hne : data ≠ [])
    (hagree : ∀ j ≤ k, r2 (pos + j) = r1 (pos + j)) :
    readMCPResponse codec r2 pos = readMCPResponse codec r1 pos
    ∧ (readMCPResponse codec r1 pos).reads ≤ k + 1
    ∧ (∀ j, j + 1 < (readMCPResponse codec r1 pos).reads → isEmptyRead (r1 (pos + j)) = true)
    ∧ (k = 0 → (readMCPResponse codec r1 pos).result = some (parseResponse codec data)
        ∧ (readMCPResponse codec r1 pos).reads = 1)
    ∧ (∀ (r : Reader) (line : GoString) (e : Option GoString),
        r pos = .returns (line.take bufSize) e → line.take bufSize ≠ [] →
        (readMCPResponse codec r pos).result = some (parseResponse codec (line.take bufSize))
        ∧ (readMCPResponse codec r pos).reads = 1)
    ∧ (readMCPResponse sampleCodec wholeReader 0).result = some (.ok initResponse)
    ∧ (readMCPResponse sampleCodec splitReader 0).result
      = some (.error (lit "no valid JSON response found in data: \x7b\"jsonrpc\":\"2.0\",")) := by
  have hle := readLoop_reads_le_of_nonempty r1 pos k data err hk hne maxAttempts 0 0 0
    (Nat.zero_le _)
  refine ⟨?_, ?_, ?_, ?_, ?_, splitReader_results.2.2.1, splitReader_results.1⟩
  · apply readMCPResponse_congr
    apply readLoop_congr
    intro j _ hj
    exact hagree j (by omega)
  · rw [readMCPResponse_reads]; exact hle
  · intro j hj
    rw [readMCPResponse_reads] at hj
    exact readLoop_earlier_reads_empty r1 pos maxAttempts 0 0 0 j (Nat.zero_le _) hj
  · intro hk0
    subst hk0
    exact readMCPResponse_first_read codec r1 pos data err hk hne
  · intro r line e h0 hne2
    exact readMCPResponse_first_read codec r pos _ e h0 hne2

/-- Claim C11 at a line delivered in two reads: a reader that delivers only
the first piece gets the same result, after one read. -/
theorem readMCPResponse_single_chunk_witness :
    readMCPResponse sampleCodec headOnlyReader 0 = readMCPResponse sampleCodec splitReader 0
    ∧ (readMCPResponse sampleCodec splitReader 0).reads ≤ 0 + 1 :=
  ⟨(readMCPResponse_single_chunk sampleCodec splitReader headOnlyReader 0 0 splitHead none
      (by decide) (by decide) (by decide)).1,
   (readMCPResponse_single_chunk sampleCodec splitReader headOnlyReader 0 0 splitHead none
      (by decide) (by decide) (by decide)).2.1⟩

end MCPAudit
